import Mathlib

/-!
Shallow embedding of the statistical-arbitrage trading bot
(`utils.py`, `scanner.py`, `mt5_bridge.py`, `portfolio_bot.py`, `config.py`)
and proofs about it.

Modelling conventions, used throughout:

* Python floats are modelled as exact rationals (`ℚ`); float literals such
  as `0.95`, `2.3`, `1e-9` stand for the exact decimal they denote.
* A pandas `Series` of prices is modelled as a `List ℚ` in time-ascending
  order.  Two series of the same instrument universe are taken to share
  their time index positionally, so pandas index alignment
  (`la - beta * lb`, `a.corr(b)`, `np.cov`) is modelled by positional
  `zip`; `dropna()` after an aligned subtraction of NaN-free series is the
  identity.
* `math.sqrt`-valued quantities (standard deviations, hence z-scores,
  correlations and realized volatilities) are irrational, so the embedding
  carries them exactly: a standard deviation is represented by its square
  (a rational), and every comparison the source makes against such a value
  is embedded as the equivalent exact rational comparison, obtained by
  squaring with the correct sign analysis.  Each such decision function
  documents the comparison it decides.  `zscoreGtB_correct`,
  `zscoreLtB_correct` and `zscoreAbsLtB_correct` below prove the encodings
  equal to the real-number comparisons they stand for.
* Fallible broker and feed calls are modelled as oracles in an `Env`
  record: the embedding quantifies over every possible sequence of broker
  results.  A Python exception inside one per-pair loop iteration is
  modelled by the `raises` oracle, with the exception surfacing at the
  start of the iteration (the data fetch, the first fallible call).
* `time.time()` is modelled as `Env.now`, constant within one polling
  cycle (the claims under study quantify at cycle granularity).
* NaN handling: pandas `corr` of a zero-variance series is NaN, and
  `NaN < t` is `False` in Python; the embedding of that comparison
  (`corrLtB`) returns `false` in the zero-variance case accordingly.
-/

/-! ## Statistics library (`utils.py`) -/

/-- Sum of a list of rationals (the summation underlying `np`/`pandas`
mean, var and cov). -/
def lsum (xs : List ℚ) : ℚ := xs.foldr (· + ·) 0

/-- Arithmetic mean of a series (`series.mean()`, `np.mean`). -/
def lmean (xs : List ℚ) : ℚ := lsum xs / xs.length

/-- Population variance `np.var(x)` (`ddof = 0`): mean squared deviation. -/
def varPop (xs : List ℚ) : ℚ :=
  lsum (xs.map fun v => (v - lmean xs) ^ 2) / (xs.length : ℚ)

/-- Unbiased sample variance (`ddof = 1`), the square of
`series.std(ddof=1)`. -/
def var1 (xs : List ℚ) : ℚ :=
  lsum (xs.map fun v => (v - lmean xs) ^ 2) / ((xs.length : ℚ) - 1)

/-- Unbiased sample covariance `np.cov(y, x, ddof=1)[0, 1]`.  `np.cov`
requires equally long inputs; the positional `zip` agrees with it there. -/
def cov1 (ys xs : List ℚ) : ℚ :=
  lsum ((ys.zip xs).map fun p => (p.1 - lmean ys) * (p.2 - lmean xs)) /
    ((ys.length : ℚ) - 1)

/-- Last n elements of a series, `series.tail(n)`. -/
def tailN (xs : List ℚ) (n : ℕ) : List ℚ := xs.drop (xs.length - n)

/-- First difference dropping the leading undefined value:
`utils.log_returns` = `logp.diff().dropna()`. -/
def logReturns (xs : List ℚ) : List ℚ := (xs.zip xs.tail).map fun p => p.2 - p.1

/-- Last element of a series, `series.iloc[-1]` (0 on an empty series;
every use is guarded by a length check). -/
def llast (xs : List ℚ) : ℚ := xs.getLast?.getD 0

/-- Translation of `utils.ols_beta`: 1.0 for series shorter than 50 points
or zero-variance `x`, otherwise `np.cov(yv, xv, ddof=1)[0,1] / np.var(xv)`
— note the `ddof` mismatch: unbiased covariance over population
variance. -/
def ols_beta (y x : List ℚ) : ℚ :=
  if y.length < 50 ∨ x.length < 50 then 1
  else if varPop x = 0 then 1
  else cov1 y x / varPop x

/-- Numerator of `utils.zscore`: `last - mean` in the nondegenerate case,
0 when the source returns 0.0 (fewer than 50 points, or zero/undefined
standard deviation).  The exact z-score value is
`zscoreNum s / Real.sqrt (zscoreDen s)`. -/
def zscoreNum (s : List ℚ) : ℚ :=
  if s.length < 50 then 0
  else if var1 s = 0 then 0
  else llast s - lmean s

/-- Squared denominator of `utils.zscore`: the `ddof = 1` sample variance
(whose square root is the `sd` of the source) in the nondegenerate case, 1
when the source returns 0.0, so that `zscoreNum / sqrt zscoreDen` is the
source's return value in every case. -/
def zscoreDen (s : List ℚ) : ℚ :=
  if s.length < 50 then 1
  else if var1 s = 0 then 1
  else var1 s

/-- Decides `utils.zscore(s) > t` exactly.  With `z = n / sqrt v`,
`v > 0`: for `t ≥ 0`, `z > t ↔ n > 0 ∧ n² > t²·v`; for `t < 0`,
`z > t ↔ n ≥ 0 ∨ n² < t²·v`.  Proved sound in `zscoreGtB_correct`. -/
def zscoreGtB (s : List ℚ) (t : ℚ) : Bool :=
  if 0 ≤ t then decide (0 < zscoreNum s ∧ t ^ 2 * zscoreDen s < zscoreNum s ^ 2)
  else decide (0 ≤ zscoreNum s ∨ zscoreNum s ^ 2 < t ^ 2 * zscoreDen s)

/-- Decides `utils.zscore(s) < t` exactly (sign analysis dual to
`zscoreGtB`).  Proved sound in `zscoreLtB_correct`. -/
def zscoreLtB (s : List ℚ) (t : ℚ) : Bool :=
  if 0 ≤ t then decide (zscoreNum s < 0 ∨ zscoreNum s ^ 2 < t ^ 2 * zscoreDen s)
  else decide (zscoreNum s < 0 ∧ t ^ 2 * zscoreDen s < zscoreNum s ^ 2)

/-- Decides `abs(utils.zscore(s)) < t` exactly:
`|n|/sqrt v < t ↔ t > 0 ∧ n² < t²·v`.  Proved sound in
`zscoreAbsLtB_correct`. -/
def zscoreAbsLtB (s : List ℚ) (t : ℚ) : Bool :=
  decide (0 < t ∧ zscoreNum s ^ 2 < t ^ 2 * zscoreDen s)

/-- Decides `utils.corr(a, b) < t` exactly.  `utils.corr` returns 0.0 for
series shorter than 30 points; otherwise it is the Pearson correlation
`sxy / sqrt (sxx · syy)` over the positionally aligned domain.  When
either series has zero variance pandas yields NaN, and the Python
comparison `NaN < t` is `False`.  In the regular case the comparison is
squared with sign analysis as for the z-score. -/
def corrLtB (a b : List ℚ) (t : ℚ) : Bool :=
  if a.length < 30 ∨ b.length < 30 then decide (0 < t)
  else
    let sxy := lsum ((a.zip b).map fun p => (p.1 - lmean a) * (p.2 - lmean b))
    let sxx := lsum (a.map fun v => (v - lmean a) ^ 2)
    let syy := lsum (b.map fun v => (v - lmean b) ^ 2)
    if sxx = 0 ∨ syy = 0 then false
    else if 0 ≤ t then decide (sxy < 0 ∨ sxy ^ 2 < t ^ 2 * (sxx * syy))
    else decide (sxy < 0 ∧ t ^ 2 * (sxx * syy) < sxy ^ 2)

/-- Square of `utils.realized_vol`: 0.0 for fewer than 50 points, else
`lr.std(ddof=1)` whose square is the sample variance. -/
def realizedVolSq (lr : List ℚ) : ℚ := if lr.length < 50 then 0 else var1 lr

/-! ## Configuration (`config.py`) -/

/-- Translation of `config.Config` (the `candidates` universe is not
needed by any claim and is omitted). -/
structure Config where
  timeframe : String := "1m"
  lookback : ℕ := 720
  beta_window : ℕ := 720
  z_entry : ℚ := 23 / 10
  z_exit : ℚ := 1 / 2
  max_hold_minutes : ℚ := 240
  top_pairs : ℕ := 5
  max_open_positions : ℕ := 2
  min_corr : ℚ := 55 / 100
  max_vol_ratio : ℚ := 2
  poll_seconds : ℕ := 20

/-- Translation of `config.default_config` (field values as in the
dataclass defaults). -/
def default_config : Config := {}

/-! ## Risk manager (`mt5_bridge.py`) -/

/-- Translation of `mt5_bridge.RiskConfig` (the timezone name only fixes
which local midnight bounds the daily-P&L sum and is left out). -/
structure RiskConfig where
  risk_usd_per_leg : ℚ := 5
  max_daily_loss_usd : ℚ := 50
  max_total_drawdown_usd : ℚ := 500
  enforce_kill_switch : Bool := true

/-- Numbers the risk manager reads from the broker for one
`is_trading_allowed` call: `account_info().equity`, the sum of today's
closed-deal profits (`daily_pnl_realized`), and the sum of floating
profits over open broker positions (`floating_pnl`). -/
structure AccountView where
  equity : ℚ
  daily_realized : ℚ
  floating : ℚ

/-- Translation of `mt5_bridge.RiskManager.is_trading_allowed`.
`start_equity` is the recorded start-equity snapshot (`none` when never
set, in which case the method refreshes it to current equity before
computing the drawdown, making the drawdown 0 for that call). -/
def is_trading_allowed (cfg : RiskConfig) (start_equity : Option ℚ)
    (acct : AccountView) : Bool × String :=
  let se := start_equity.getD acct.equity
  if cfg.enforce_kill_switch ∧ acct.equity - se ≤ -|cfg.max_total_drawdown_usd| then
    (false, "KILL_SWITCH equity DD")
  else if acct.daily_realized + acct.floating ≤ -|cfg.max_daily_loss_usd| then
    (false, "DAILY_LIMIT pnl_today")
  else (true, "OK")

/-! ## Pair scanner (`scanner.py`) -/

/-- Translation of `scanner.PairScore`. -/
structure PairScore where
  a : String
  b : String
  score : ℚ
  corr_lr : ℚ
  spread_vol : ℚ
  beta : ℚ

/-- Loop body of `scanner.pick_top_pairs`: iterate over the ranked list
carrying the picked pairs and the `used` instrument set (modelled as a
list); skip a pair that reuses a used instrument; after appending a pick,
stop as soon as `k ≤ len(picked)` (the source checks the bound only after
appending). -/
def pickLoop (k : ℕ) : List PairScore → List (String × String) → List String →
    List (String × String)
  | [], picked, _ => picked
  | p :: rest, picked, used =>
    if p.a ∈ used ∨ p.b ∈ used then pickLoop k rest picked used
    else
      let picked' := picked ++ [(p.a, p.b)]
      let used' := used ++ [p.a, p.b]
      if k ≤ picked'.length then picked' else pickLoop k rest picked' used'

/-- Translation of `scanner.pick_top_pairs`. -/
def pick_top_pairs (scored : List PairScore) (k : ℕ) : List (String × String) :=
  pickLoop k scored [] []

/-! ## Portfolio controller data model (`portfolio_bot.py`) -/

/-- Translation of `portfolio_bot.Position` (ticket sentinel 0 means "not
yet confirmed open", as in the source). -/
structure Position where
  a : String
  b : String
  side_a : String
  side_b : String
  vol_a : ℚ
  vol_b : ℚ
  entry_pa : ℚ
  entry_pb : ℚ
  entry_ts : ℚ
  ticket_a : ℤ := 0
  ticket_b : ℤ := 0

/-- Pair key of the open-position table. -/
abbrev PairKey := String × String

/-- Result of one `mt5c.open_position` call as the controller reads it:
the `ok` flag and `res["result"].order` (the broker ticket). -/
structure BrokerResult where
  ok : Bool
  order : ℤ

/-- Result of one `mt5c.close_position_by_ticket` call as the controller
reads it: the `ok` flag and `res["result"]["profit"]`. -/
structure CloseResult where
  ok : Bool
  profit : ℚ

/-- Observable broker calls the controller makes (the trace of external
side effects; arguments as passed by the source). -/
inductive BrokerCall where
  | openPos (symbol side : String) (vol : ℚ)
  | closeTicket (ticket : ℤ)
deriving DecidableEq

/-- Environment of one polling cycle: the external collaborators as
oracles.  `logClose s` is the cleaned log-price series
`log_prices(feed.fetch_close(s, timeframe, lookback))` — the logarithm
being transcendental, the embedding takes the post-log series as the
feed's output.  `openRes pair attempt legA` is the broker's answer to the
`open_position` call of the given entry attempt (`legA = true` for leg A);
`closeRes t` the answer to `close_position_by_ticket(t)`;
`rmAllowed` the outcome of `rm.is_trading_allowed()`; `raises p` whether
the per-pair iteration for `p` raises an exception; `now` the wall
clock. -/
structure Env where
  logClose : String → List ℚ
  lastPrice : String → ℚ
  rmAllowed : Bool
  calcVol : String → ℚ → ℚ → ℚ
  openRes : PairKey → ℕ → Bool → BrokerResult
  closeRes : ℤ → CloseResult
  raises : PairKey → Bool
  now : ℚ

/-- Mutable state of `portfolio_bot.PortfolioStatArbBot`: the
open-position table (`Dict[Tuple[str,str], Position]` as an
insertion-ordered association list), the cooldown deadline, the halted
flag and the consecutive-error counter. -/
structure BotState where
  positions : List (PairKey × Position)
  cooldown_until_ts : ℚ
  halted : Bool
  consecutive_errors : ℕ

/-- Dictionary lookup `self.positions[key]` / `key in self.positions`
(first entry with the key, as for a Python dict whose keys are unique). -/
def posLookup : List (PairKey × Position) → PairKey → Option Position
  | [], _ => none
  | e :: t, k => if e.1 = k then some e.2 else posLookup t k

/-- Dictionary assignment `self.positions[key] = v` (replace when present,
append otherwise, as a Python dict does). -/
def posInsert (ps : List (PairKey × Position)) (k : PairKey) (v : Position) :
    List (PairKey × Position) :=
  if (ps.find? fun e => decide (e.1 = k)).isSome then
    ps.map fun e => if e.1 = k then (k, v) else e
  else ps ++ [(k, v)]

/-- Dictionary deletion `del self.positions[key]`. -/
def posErase (ps : List (PairKey × Position)) (k : PairKey) :
    List (PairKey × Position) :=
  ps.filter fun e => !decide (e.1 = k)

/-- Python `str.startswith`, via the underlying character lists. -/
def startsWithB (s pre : String) : Bool := pre.data.isPrefixOf s.data

/-! ## Portfolio controller operations (`portfolio_bot.py`) -/

/-- Translation of `PortfolioStatArbBot._can_trade`: halted blocks
everything; the cooldown blocks only entry checks (`checking_entry`); a
risk-manager veto sets `halted` and blocks.  Returns the boolean and the
possibly updated state. -/
def can_trade (env : Env) (s : BotState) (checking_entry : Bool) : Bool × BotState :=
  if s.halted then (false, s)
  else if checking_entry ∧ env.now < s.cooldown_until_ts then (false, s)
  else if ¬env.rmAllowed then (false, { s with halted := true })
  else (true, s)

/-- Translation of `PortfolioStatArbBot._regime_ok` on the tailed
log-price series `la`, `lb`.  The source compares float values
`corr(ra, rb) < min_corr` and `ratio <= max_vol_ratio` where
`ratio = max(vola, volb) / max(1e-9, min(vola, volb) if min > 0 else base)`
and each `vol` is a square root; here each comparison is decided exactly
on the squared volatilities `sa`, `sb` (so e.g. `vol ≥ 1e-9` becomes
`volSq ≥ 1e-18`), with `base = 0` (both vols zero) short-circuiting to
`True` as in the source. -/
def regime_ok (cfg : Config) (la lb : List ℚ) : Bool :=
  let ra := tailN (logReturns la) 400
  let rb := tailN (logReturns lb) 400
  if corrLtB ra rb cfg.min_corr then false
  else
    let sa := realizedVolSq ra
    let sb := realizedVolSq rb
    if sa = 0 ∧ sb = 0 then true
    else
      let smax := max sa sb
      let smin := min sa sb
      let R := cfg.max_vol_ratio
      if 0 < smin then
        if 1 / 10 ^ 18 ≤ smin then decide (0 ≤ R ∧ smax ≤ R ^ 2 * smin)
        else decide (0 ≤ R ∧ smax ≤ R ^ 2 / 10 ^ 18)
      else
        if 1 / 10 ^ 18 ≤ smax then decide (1 ≤ R)
        else decide (0 ≤ R ∧ smax ≤ R ^ 2 / 10 ^ 18)

/-- Spread series `(la - beta * lb).dropna()` under positional index
alignment. -/
def spreadOf (beta : ℚ) (la lb : List ℚ) : List ℚ :=
  (la.zip lb).map fun p => p.1 - beta * p.2

/-- Result of `PortfolioStatArbBot._compute_signal`: the action tag
(string, as in the source), the exact z-score representation
(`zNum / sqrt zDen`, equal to the float z the source returns), the hedge
ratio and the diagnostic reason. -/
structure SigResult where
  action : String
  zNum : ℚ
  zDen : ℚ
  beta : ℚ
  reason : String

/-- Translation of `PortfolioStatArbBot._compute_signal`.  The two fetched
close series arrive as cleaned log-price series (`Env.logClose`), are
tailed to the lookback, length-checked (SKIP below 120 points), regime
filtered when no position is open, and turned into the decision-table
action on the z-score of the trailing-400 spread window. -/
def compute_signal (cfg : Config) (env : Env) (positions : List (PairKey × Position))
    (a b : String) : SigResult :=
  let la := tailN (env.logClose a) cfg.lookback
  let lb := tailN (env.logClose b) cfg.lookback
  if la.length < 120 ∨ lb.length < 120 then ⟨"SKIP", 0, 1, 1, "not enough data"⟩
  else if ¬regime_ok cfg la lb ∧ (posLookup positions (a, b)).isNone then
    ⟨"SKIP", 0, 1, 1, "regime filter"⟩
  else
    let beta := ols_beta (tailN la cfg.beta_window) (tailN lb cfg.beta_window)
    let zs := tailN (spreadOf beta la lb) 400
    match posLookup positions (a, b) with
    | none =>
      if zscoreGtB zs cfg.z_entry then
        ⟨"ENTER_LONGB_SHORTA", zscoreNum zs, zscoreDen zs, beta, "z high"⟩
      else if zscoreLtB zs (-cfg.z_entry) then
        ⟨"ENTER_LONGA_SHORTB", zscoreNum zs, zscoreDen zs, beta, "z low"⟩
      else ⟨"HOLD", zscoreNum zs, zscoreDen zs, beta, "no entry"⟩
    | some pos =>
      if (env.now - pos.entry_ts) / 60 > cfg.max_hold_minutes then
        ⟨"EXIT", zscoreNum zs, zscoreDen zs, beta, "max hold"⟩
      else if zscoreAbsLtB zs cfg.z_exit then
        ⟨"EXIT", zscoreNum zs, zscoreDen zs, beta, "mean reversion"⟩
      else ⟨"HOLD", zscoreNum zs, zscoreDen zs, beta, "in position"⟩

/-- Retry loop of `PortfolioStatArbBot._live_enter` (`for attempt in
range(1, max_retries + 1)` with `max_retries = 3`): open leg A; on
success open leg B; on B-failure close the orphaned leg A by its ticket
and reset it before the next attempt; a double success breaks out.
`res attempt legA` is the broker oracle for this pair.  Returns the final
`(ticket_a, ticket_b)` and the trace of broker calls made. -/
def enterLoop (res : ℕ → Bool → BrokerResult) (a b side_a side_b : String)
    (vol_a vol_b : ℚ) : ℕ → ℕ → ℤ × ℤ × List BrokerCall
  | 0, _ => (0, 0, [])
  | fuel + 1, attempt =>
    let rA := res attempt true
    if rA.ok then
      let rB := res attempt false
      if rB.ok then
        (rA.order, rB.order, [.openPos a side_a vol_a, .openPos b side_b vol_b])
      else
        let rest := enterLoop res a b side_a side_b vol_a vol_b fuel (attempt + 1)
        (rest.1, rest.2.1,
          [.openPos a side_a vol_a, .openPos b side_b vol_b, .closeTicket rA.order]
            ++ rest.2.2)
    else
      let rest := enterLoop res a b side_a side_b vol_a vol_b fuel (attempt + 1)
      (rest.1, rest.2.1, [.openPos a side_a vol_a] ++ rest.2.2)

/-- Translation of `PortfolioStatArbBot._live_enter`.  Leg sides come from
comparing the action tag against the literal `"ENTER_A_LONG"`, exactly as
the source does; volumes from `rm.calc_volume_for_risk(sym, p, p * 0.95)`;
then the retry loop runs, and a `Position` is recorded only when both
final tickets are nonzero (Python truthiness of `ticket_a and
ticket_b`). -/
def live_enter (env : Env) (s : BotState) (a b action : String) (pa pb : ℚ) :
    BotState × List BrokerCall :=
  let side_a := if action = "ENTER_A_LONG" then "BUY" else "SELL"
  let side_b := if action = "ENTER_A_LONG" then "SELL" else "BUY"
  let vol_a := env.calcVol a pa (pa * (95 / 100))
  let vol_b := env.calcVol b pb (pb * (95 / 100))
  let r := enterLoop (env.openRes (a, b)) a b side_a side_b vol_a vol_b 3 1
  if r.1 ≠ 0 ∧ r.2.1 ≠ 0 then
    ({ s with
        positions := posInsert s.positions (a, b)
          ⟨a, b, side_a, side_b, vol_a, vol_b, pa, pb, env.now, r.1, r.2.1⟩ },
      r.2.2)
  else (s, r.2.2)

/-- Translation of `PortfolioStatArbBot._live_exit`: close both legs by
ticket, sum the realized profits (a failed close contributes 0.0), start
the 30-minute cooldown when the total is negative, and delete the
position from the table. -/
def live_exit (env : Env) (s : BotState) (k : PairKey) (pos : Position) :
    BotState × List BrokerCall :=
  let resA := env.closeRes pos.ticket_a
  let resB := env.closeRes pos.ticket_b
  let pnl_a := if resA.ok then resA.profit else 0
  let pnl_b := if resB.ok then resB.profit else 0
  let total := pnl_a + pnl_b
  ({ s with
      positions := posErase s.positions k,
      cooldown_until_ts :=
        if total < 0 then env.now + 30 * 60 else s.cooldown_until_ts },
    [.closeTicket pos.ticket_a, .closeTicket pos.ticket_b])

/-- One iteration of the per-pair loop in `PortfolioStatArbBot.step`
(the body of the `try`).  An exception (the `raises` oracle) increments
the consecutive-error counter and halts at 8; otherwise the signal is
computed, an EXIT on an open position is executed unconditionally, an
ENTER on a pair with no position is gated by
`_can_trade(checking_entry=True)`, anything else is a no-op, and a
successful iteration resets the error counter to zero. -/
def step_pair (cfg : Config) (env : Env) (s : BotState) (p : PairKey) :
    BotState × List BrokerCall :=
  if env.raises p then
    let errs := s.consecutive_errors + 1
    ({ s with
        consecutive_errors := errs,
        halted := s.halted || decide (8 ≤ errs) }, [])
  else
    let sig := compute_signal cfg env s.positions p.1 p.2
    let pa := env.lastPrice p.1
    let pb := env.lastPrice p.2
    match posLookup s.positions p with
    | some pos =>
      if sig.action = "EXIT" then
        let r := live_exit env s p pos
        ({ r.1 with consecutive_errors := 0 }, r.2)
      else ({ s with consecutive_errors := 0 }, [])
    | none =>
      if startsWithB sig.action "ENTER" then
        let ct := can_trade env s true
        if ct.1 then
          let r := live_enter env ct.2 p.1 p.2 sig.action pa pb
          ({ r.1 with consecutive_errors := 0 }, r.2)
        else ({ ct.2 with consecutive_errors := 0 }, [])
      else ({ s with consecutive_errors := 0 }, [])

/-- Sequential per-pair loop of `PortfolioStatArbBot.step` (the `for`
statement), accumulating the broker-call trace. -/
def run_pairs (cfg : Config) (env : Env) : BotState → List PairKey →
    BotState × List BrokerCall
  | s, [] => (s, [])
  | s, p :: l =>
    let r := step_pair cfg env s p
    let rest := run_pairs cfg env r.1 l
    (rest.1, r.2 ++ rest.2)

/-- Translation of `PortfolioStatArbBot.step` (one polling cycle): the
cycle-start `_can_trade(checking_entry=False)` gate (which may latch
`halted` on a risk veto), then the working pair set — the open-position
keys when the table has reached `max_open_positions`, else the scanner's
pair list — then the per-pair loop. -/
def step (cfg : Config) (env : Env) (s : BotState) (pairs : List PairKey) :
    BotState × List BrokerCall :=
  let ct := can_trade env s false
  if ¬ct.1 then (ct.2, [])
  else
    let s0 := ct.2
    let toCheck :=
      if cfg.max_open_positions ≤ s0.positions.length then s0.positions.map (·.1)
      else pairs
    run_pairs cfg env s0 toCheck

/-! ## Spec-side comparison definition (for the `ols_beta` refinement) -/

/-- Definition following the spec's words, for comparison with the
source-derived `ols_beta`: "the standard OLS regression slope of y on x
over the window", i.e. the centered cross-product sum over the centered
square sum of `x` (a ratio independent of the `ddof` convention). -/
def olsSlopeSpec (y x : List ℚ) : ℚ :=
  lsum ((y.zip x).map fun p => (p.1 - lmean y) * (p.2 - lmean x)) /
    lsum (x.map fun v => (v - lmean x) ^ 2)

/-! ## Characterization helpers for the entry retry loop -/

/-- First attempt (1-based, among the 3 the source makes) at which both
legs report `ok`, if any: the attempt at which `_live_enter`'s loop
breaks. -/
def firstSuccAt (res : ℕ → Bool → BrokerResult) : Option ℕ :=
  if (res 1 true).ok ∧ (res 1 false).ok then some 1
  else if (res 2 true).ok ∧ (res 2 false).ok then some 2
  else if (res 3 true).ok ∧ (res 3 false).ok then some 3
  else none

/-- Broker calls attempt `j` of the entry retry loop makes: open leg A
only when A fails; both opens when both succeed; both opens followed by
the compensating ticket-addressed close of leg A when A opened and B
failed. -/
def attemptCalls (res : ℕ → Bool → BrokerResult) (a b side_a side_b : String)
    (vol_a vol_b : ℚ) (j : ℕ) : List BrokerCall :=
  if ¬(res j true).ok then [.openPos a side_a vol_a]
  else if (res j false).ok then
    [.openPos a side_a vol_a, .openPos b side_b vol_b]
  else
    [.openPos a side_a vol_a, .openPos b side_b vol_b,
      .closeTicket (res j true).order]

/-! ## Concrete inputs used by counterexamples and witnesses -/

/-- Concrete cleaned log-price series: 119 flat points and one upward
spike, 120 points in all (just enough for the signal engine). -/
def spikeSeries : List ℚ := List.replicate 119 0 ++ [1]

/-- Concrete cleaned log-price series: 119 flat points and one downward
spike. -/
def spikeDnSeries : List ℚ := List.replicate 119 0 ++ [-1]

/-- Concrete flat cleaned log-price series of 120 points (a constant
price). -/
def flatSeries : List ℚ := List.replicate 120 0

/-- Concrete cleaned log-price series with fewer than 120 points. -/
def shortSeries : List ℚ := List.replicate 119 0

/-- Benign environment shared by the concrete scenarios: flat data, a
permissive risk manager, broker opens that succeed with ticket 1, broker
closes that succeed with zero profit, no exceptions, clock at 0. -/
def baseEnv : Env where
  logClose := fun _ => flatSeries
  lastPrice := fun _ => 1
  rmAllowed := true
  calcVol := fun _ _ _ => 1
  openRes := fun _ _ _ => ⟨true, 1⟩
  closeRes := fun _ => ⟨true, 0⟩
  raises := fun _ => false
  now := 0

/-- Environment whose every instrument has the identical downward-spike
price history (the identical-series scenario). -/
def envIdent : Env := { baseEnv with logClose := fun _ => spikeDnSeries }

/-- Environment where instrument "B" is flat and every other instrument
has the downward-spike history: the pair ("A", "B") gets a z-score below
the negated entry threshold, hence the long-A/short-B ENTER action. -/
def envLongA : Env :=
  { baseEnv with logClose := fun s => if s = "B" then flatSeries else spikeDnSeries }

/-- Environment where instruments "B1", "B2", "B3" are flat and all
others have the upward-spike history: each pair ("Ai", "Bi") gets an
ENTER action. -/
def envManyEnter : Env :=
  { baseEnv with
      logClose := fun s =>
        if s = "B1" ∨ s = "B2" ∨ s = "B3" then flatSeries else spikeSeries }

/-- Environment with too-short flat histories everywhere (119 points). -/
def envShortData : Env := { baseEnv with logClose := fun _ => shortSeries }

/-- Environment for the two-leg entry retry scenario: leg B's open fails
on attempt 1 (after leg A opened with ticket 101), then both legs open on
attempt 2 with tickets 102 and 103. -/
def envRetryEntry : Env :=
  { baseEnv with
      logClose := fun s => if s = "B" then flatSeries else spikeSeries,
      openRes := fun _ attempt legA =>
        if attempt = 1 then (if legA then ⟨true, 101⟩ else ⟨false, 0⟩)
        else if legA then ⟨true, 102⟩ else ⟨true, 103⟩ }

/-- Environment whose broker reports a loss of 5 on every leg close. -/
def envLossExit : Env := { baseEnv with closeRes := fun _ => ⟨true, -5⟩ }

/-- Environment in which every per-pair iteration raises an exception. -/
def envAllRaise : Env := { baseEnv with raises := fun _ => true }

/-- Position record the controller creates for pair `(a, b)` in the
benign environments above (sides from the never-matching
`"ENTER_A_LONG"` comparison, unit volumes and prices, clock 0, broker
ticket 1 on both legs). -/
def enteredPos (a b : String) : Position :=
  ⟨a, b, "SELL", "BUY", 1, 1, 1, 1, 0, 1, 1⟩

/-- Open position on the pair ("A", "B") used by the exit scenarios:
entered at time −1000000, so its held duration exceeds any reasonable
max-hold bound. -/
def stalePosition : Position :=
  ⟨"A", "B", "SELL", "BUY", 1, 1, 1, 1, -1000000, 7, 8⟩

/-- Bot state with the single stale open position on ("A", "B"). -/
def staleState : BotState :=
  ⟨[(("A", "B"), stalePosition)], 0, false, 0⟩

/-- Empty bot state: no positions, no cooldown, not halted, no
consecutive errors. -/
def emptyState : BotState := ⟨[], 0, false, 0⟩

/-! ## Soundness of the exact square-root comparison encodings -/

theorem lsum_nil : lsum [] = 0 := rfl

theorem lsum_cons (x : ℚ) (l : List ℚ) : lsum (x :: l) = x + lsum l := rfl

theorem lsum_append (xs ys : List ℚ) : lsum (xs ++ ys) = lsum xs + lsum ys := by
  induction xs with
  | nil => simp [lsum]
  | cons a l ih => simp only [List.cons_append, lsum_cons, ih]; ring

theorem lsum_replicate (n : ℕ) (x : ℚ) : lsum (List.replicate n x) = n * x := by
  induction n with
  | zero => simp [lsum]
  | succ m ih =>
    rw [List.replicate_succ, lsum_cons, ih]
    push_cast
    ring

theorem lsum_nonneg (l : List ℚ) (h : ∀ x ∈ l, 0 ≤ x) : 0 ≤ lsum l := by
  induction l with
  | nil => simp [lsum]
  | cons a t ih =>
    rw [lsum_cons]
    have ha := h a (List.mem_cons_self a t)
    have ht := ih fun x hx => h x (List.mem_cons_of_mem a hx)
    linarith

theorem var1_nonneg (s : List ℚ) (h : 2 ≤ s.length) : 0 ≤ var1 s := by
  unfold var1
  apply div_nonneg
  · exact lsum_nonneg _ (by
      intro x hx
      obtain ⟨v, _, rfl⟩ := List.mem_map.mp hx
      positivity)
  · have : (2 : ℚ) ≤ (s.length : ℚ) := by exact_mod_cast h
    linarith

theorem zscoreDen_pos (s : List ℚ) : 0 < zscoreDen s := by
  unfold zscoreDen
  split
  · norm_num
  · split
    · norm_num
    · rename_i hlen hvar
      have h2 : 2 ≤ s.length := by omega
      exact lt_of_le_of_ne (var1_nonneg s h2) (Ne.symm hvar)

/-- Comparison of `t * sqrt v` against `n` from below, reduced to exact
sign-and-square conditions (`0 < v`). -/
theorem mul_sqrt_lt_iff {t v n : ℝ} (hv : 0 < v) :
    t * Real.sqrt v < n ↔
      (if 0 ≤ t then 0 < n ∧ t ^ 2 * v < n ^ 2 else 0 ≤ n ∨ n ^ 2 < t ^ 2 * v) := by
  have hs : 0 < Real.sqrt v := Real.sqrt_pos.mpr hv
  have hsq2 : t ^ 2 * Real.sqrt v ^ 2 = t ^ 2 * v := by rw [Real.sq_sqrt hv.le]
  split
  · rename_i ht
    constructor
    · intro h
      have h0 : 0 < n := lt_of_le_of_lt (mul_nonneg ht hs.le) h
      have h3 : 0 < n + t * Real.sqrt v := by nlinarith [mul_nonneg ht hs.le]
      have key : 0 < (n - t * Real.sqrt v) * (n + t * Real.sqrt v) :=
        mul_pos (by linarith) h3
      refine ⟨h0, ?_⟩
      nlinarith [key, hsq2]
    · rintro ⟨h0, h2⟩
      have h3 : 0 < n + t * Real.sqrt v := by nlinarith [mul_nonneg ht hs.le]
      by_contra hc
      push_neg at hc
      nlinarith [mul_nonneg (sub_nonneg.mpr hc) h3.le, hsq2]
  · rename_i ht
    push_neg at ht
    have hts : t * Real.sqrt v < 0 := mul_neg_of_neg_of_pos ht hs
    constructor
    · intro h
      by_cases h0 : 0 ≤ n
      · exact Or.inl h0
      · push_neg at h0
        refine Or.inr ?_
        have key : 0 < (n - t * Real.sqrt v) * (-(n + t * Real.sqrt v)) :=
          mul_pos (by linarith) (by linarith)
        nlinarith [key, hsq2]
    · intro h
      rcases h with h0 | h2
      · linarith
      · by_contra hc
        push_neg at hc
        have key : 0 ≤ (t * Real.sqrt v - n) * (-(t * Real.sqrt v + n)) :=
          mul_nonneg (by linarith) (by linarith)
        nlinarith [key, hsq2]

/-- Comparison of `n` against `t * sqrt v` from below, reduced to exact
sign-and-square conditions (`0 < v`). -/
theorem lt_mul_sqrt_iff {t v n : ℝ} (hv : 0 < v) :
    n < t * Real.sqrt v ↔
      (if 0 ≤ t then n < 0 ∨ n ^ 2 < t ^ 2 * v else n < 0 ∧ t ^ 2 * v < n ^ 2) := by
  have hs : 0 < Real.sqrt v := Real.sqrt_pos.mpr hv
  have hsq2 : t ^ 2 * Real.sqrt v ^ 2 = t ^ 2 * v := by rw [Real.sq_sqrt hv.le]
  split
  · rename_i ht
    have hts : 0 ≤ t * Real.sqrt v := mul_nonneg ht hs.le
    constructor
    · intro h
      by_cases h0 : n < 0
      · exact Or.inl h0
      · push_neg at h0
        refine Or.inr ?_
        have key : 0 < (t * Real.sqrt v - n) * (t * Real.sqrt v + n) :=
          mul_pos (by linarith) (by nlinarith)
        nlinarith [key, hsq2]
    · intro h
      rcases h with h0 | h2
      · linarith
      · by_contra hc
        push_neg at hc
        have hn0 : 0 ≤ n := le_trans hts hc
        have key : 0 ≤ (n - t * Real.sqrt v) * (n + t * Real.sqrt v) :=
          mul_nonneg (by linarith) (by linarith)
        nlinarith [key, hsq2]
  · rename_i ht
    push_neg at ht
    have hts : t * Real.sqrt v < 0 := mul_neg_of_neg_of_pos ht hs
    constructor
    · intro h
      have h0 : n < 0 := lt_trans h hts
      have key : 0 < (t * Real.sqrt v - n) * (-(t * Real.sqrt v + n)) :=
        mul_pos (by linarith) (by linarith)
      exact ⟨h0, by nlinarith [key, hsq2]⟩
    · rintro ⟨h0, h2⟩
      by_contra hc
      push_neg at hc
      have key : 0 ≤ (n - t * Real.sqrt v) * (-(n + t * Real.sqrt v)) :=
        mul_nonneg (by linarith) (by linarith)
      nlinarith [key, hsq2]

/-- Comparison of `|n|` against `t * sqrt v`, reduced to exact
sign-and-square conditions (`0 < v`). -/
theorem abs_lt_mul_sqrt_iff {t v n : ℝ} (hv : 0 < v) :
    |n| < t * Real.sqrt v ↔ 0 < t ∧ n ^ 2 < t ^ 2 * v := by
  have hs : 0 < Real.sqrt v := Real.sqrt_pos.mpr hv
  have hsq2 : t ^ 2 * Real.sqrt v ^ 2 = t ^ 2 * v := by rw [Real.sq_sqrt hv.le]
  have habs : |n| ^ 2 = n ^ 2 := sq_abs n
  constructor
  · intro h
    have hts : 0 < t * Real.sqrt v := lt_of_le_of_lt (abs_nonneg n) h
    have ht : 0 < t := by
      by_contra hc
      push_neg at hc
      nlinarith
    have key : 0 < (t * Real.sqrt v - |n|) * (t * Real.sqrt v + |n|) :=
      mul_pos (by linarith) (by nlinarith [abs_nonneg n])
    exact ⟨ht, by nlinarith [key, hsq2, habs]⟩
  · rintro ⟨ht, h2⟩
    by_contra hc
    push_neg at hc
    have key : 0 ≤ (|n| - t * Real.sqrt v) * (|n| + t * Real.sqrt v) :=
      mul_nonneg (by linarith) (by nlinarith [abs_nonneg n, mul_nonneg ht.le hs.le])
    nlinarith [key, hsq2, habs]

/-- Real-number reading of `zscoreGtB`: the boolean decides
`t < n / sqrt v` where `n / sqrt v` is the exact value of the source's
float z-score. -/
theorem zscoreGtB_correct (s : List ℚ) (t : ℚ) :
    zscoreGtB s t = true ↔
      (t : ℝ) < (zscoreNum s : ℝ) / Real.sqrt (zscoreDen s) := by
  have hvQ : 0 < zscoreDen s := zscoreDen_pos s
  have hvR : (0 : ℝ) < ((zscoreDen s : ℚ) : ℝ) := by exact_mod_cast hvQ
  have hs : 0 < Real.sqrt (zscoreDen s) := Real.sqrt_pos.mpr hvR
  rw [lt_div_iff₀ hs, mul_sqrt_lt_iff hvR]
  unfold zscoreGtB
  by_cases ht : 0 ≤ t
  · have htR : (0 : ℝ) ≤ (t : ℝ) := by exact_mod_cast ht
    rw [if_pos ht, if_pos htR]
    simp only [decide_eq_true_eq]
    constructor
    · rintro ⟨h1, h2⟩
      exact ⟨by exact_mod_cast h1, by exact_mod_cast h2⟩
    · rintro ⟨h1, h2⟩
      exact ⟨by exact_mod_cast h1, by exact_mod_cast h2⟩
  · have htR : ¬(0 : ℝ) ≤ (t : ℝ) := by exact_mod_cast ht
    rw [if_neg ht, if_neg htR]
    simp only [decide_eq_true_eq]
    constructor
    · rintro (h | h)
      · exact Or.inl (by exact_mod_cast h)
      · exact Or.inr (by exact_mod_cast h)
    · rintro (h | h)
      · exact Or.inl (by exact_mod_cast h)
      · exact Or.inr (by exact_mod_cast h)

/-- Real-number reading of `zscoreLtB`: the boolean decides
`n / sqrt v < t`. -/
theorem zscoreLtB_correct (s : List ℚ) (t : ℚ) :
    zscoreLtB s t = true ↔
      (zscoreNum s : ℝ) / Real.sqrt (zscoreDen s) < (t : ℝ) := by
  have hvQ : 0 < zscoreDen s := zscoreDen_pos s
  have hvR : (0 : ℝ) < ((zscoreDen s : ℚ) : ℝ) := by exact_mod_cast hvQ
  have hs : 0 < Real.sqrt (zscoreDen s) := Real.sqrt_pos.mpr hvR
  rw [div_lt_iff₀ hs, lt_mul_sqrt_iff hvR]
  unfold zscoreLtB
  by_cases ht : 0 ≤ t
  · have htR : (0 : ℝ) ≤ (t : ℝ) := by exact_mod_cast ht
    rw [if_pos ht, if_pos htR]
    simp only [decide_eq_true_eq]
    constructor
    · rintro (h | h)
      · exact Or.inl (by exact_mod_cast h)
      · exact Or.inr (by exact_mod_cast h)
    · rintro (h | h)
      · exact Or.inl (by exact_mod_cast h)
      · exact Or.inr (by exact_mod_cast h)
  · have htR : ¬(0 : ℝ) ≤ (t : ℝ) := by exact_mod_cast ht
    rw [if_neg ht, if_neg htR]
    simp only [decide_eq_true_eq]
    constructor
    · rintro ⟨h1, h2⟩
      exact ⟨by exact_mod_cast h1, by exact_mod_cast h2⟩
    · rintro ⟨h1, h2⟩
      exact ⟨by exact_mod_cast h1, by exact_mod_cast h2⟩

/-- Real-number reading of `zscoreAbsLtB`: the boolean decides
`|n / sqrt v| < t`. -/
theorem zscoreAbsLtB_correct (s : List ℚ) (t : ℚ) :
    zscoreAbsLtB s t = true ↔
      |(zscoreNum s : ℝ) / Real.sqrt (zscoreDen s)| < (t : ℝ) := by
  have hvQ : 0 < zscoreDen s := zscoreDen_pos s
  have hvR : (0 : ℝ) < ((zscoreDen s : ℚ) : ℝ) := by exact_mod_cast hvQ
  have hs : 0 < Real.sqrt (zscoreDen s) := Real.sqrt_pos.mpr hvR
  rw [abs_div, abs_of_pos hs, div_lt_iff₀ hs, abs_lt_mul_sqrt_iff hvR]
  unfold zscoreAbsLtB
  simp only [decide_eq_true_eq]
  constructor
  · rintro ⟨h1, h2⟩
    exact ⟨by exact_mod_cast h1, by exact_mod_cast h2⟩
  · rintro ⟨h1, h2⟩
    exact ⟨by exact_mod_cast h1, by exact_mod_cast h2⟩

/-! ## Evaluation lemmas for replicate-shaped series -/

theorem tailN_eq_self {xs : List ℚ} {n : ℕ} (h : xs.length ≤ n) : tailN xs n = xs := by
  unfold tailN
  rw [Nat.sub_eq_zero_of_le h, List.drop_zero]

theorem replicate_concat (n : ℕ) (x : ℚ) :
    List.replicate (n + 1) x = List.replicate n x ++ [x] :=
  List.replicate_succ' n x

theorem lsum_spike (n : ℕ) (c : ℚ) : lsum (List.replicate n 0 ++ [c]) = c := by
  rw [lsum_append, lsum_replicate, lsum_cons, lsum_nil]
  ring

theorem lmean_spike (n : ℕ) (c : ℚ) :
    lmean (List.replicate n 0 ++ [c]) = c / (n + 1) := by
  unfold lmean
  rw [lsum_spike]
  simp

theorem lmean_flat (m : ℕ) : lmean (List.replicate m (0 : ℚ)) = 0 := by
  unfold lmean
  rw [lsum_replicate]
  simp

theorem sqdev_spike (n : ℕ) (c d : ℚ) :
    lsum ((List.replicate n (0 : ℚ) ++ [c]).map fun v => (v - d) ^ 2) =
      n * d ^ 2 + (c - d) ^ 2 := by
  rw [List.map_append, List.map_replicate, lsum_append, lsum_replicate,
    List.map_singleton, lsum_cons, lsum_nil]
  ring

theorem var1_spike (n : ℕ) (c : ℚ) (h : 1 ≤ n) :
    var1 (List.replicate n 0 ++ [c]) = c ^ 2 / (n + 1) := by
  have hn : (0 : ℚ) < (n : ℚ) := by exact_mod_cast h
  unfold var1
  rw [lmean_spike, sqdev_spike]
  have hlen : ((List.replicate n (0 : ℚ) ++ [c]).length : ℚ) = (n : ℚ) + 1 := by
    simp
  rw [hlen]
  have h1 : (n : ℚ) + 1 ≠ 0 := by positivity
  field_simp
  ring

theorem varPop_spike (n : ℕ) (c : ℚ) :
    varPop (List.replicate n 0 ++ [c]) = c ^ 2 * n / ((n : ℚ) + 1) ^ 2 := by
  unfold varPop
  rw [lmean_spike, sqdev_spike]
  have hlen : ((List.replicate n (0 : ℚ) ++ [c]).length : ℚ) = (n : ℚ) + 1 := by
    simp
  rw [hlen]
  have h1 : (n : ℚ) + 1 ≠ 0 := by positivity
  field_simp
  ring

theorem var1_flat (m : ℕ) : var1 (List.replicate m (0 : ℚ)) = 0 := by
  unfold var1
  rw [lmean_flat]
  simp [lsum_replicate]

theorem varPop_flat (m : ℕ) : varPop (List.replicate m (0 : ℚ)) = 0 := by
  unfold varPop
  rw [lmean_flat]
  simp [lsum_replicate]

theorem llast_spike (n : ℕ) (c : ℚ) : llast (List.replicate n 0 ++ [c]) = c := by
  unfold llast
  rw [List.getLast?_concat]
  rfl

theorem zip_self {α : Type} (l : List α) : l.zip l = l.map fun x => (x, x) := by
  induction l with
  | nil => rfl
  | cons a t ih => simp [List.zip_cons_cons, ih]

theorem cov1_self (y : List ℚ) : cov1 y y = var1 y := by
  unfold cov1 var1
  rw [zip_self, List.map_map]
  have hm : ((fun p : ℚ × ℚ => (p.1 - lmean y) * (p.2 - lmean y)) ∘ fun x => (x, x)) =
      fun v => (v - lmean y) ^ 2 := by
    funext v
    simp only [Function.comp_apply]
    ring
  rw [hm]

theorem corr_num_self (a : List ℚ) :
    lsum ((a.zip a).map fun p => (p.1 - lmean a) * (p.2 - lmean a)) =
      lsum (a.map fun v => (v - lmean a) ^ 2) := by
  rw [zip_self, List.map_map]
  have hm : ((fun p : ℚ × ℚ => (p.1 - lmean a) * (p.2 - lmean a)) ∘ fun x => (x, x)) =
      fun v => (v - lmean a) ^ 2 := by
    funext v
    simp only [Function.comp_apply]
    ring
  rw [hm]

theorem zip_spike_succ (n : ℕ) (x y : ℚ) :
    (List.replicate (n + 1) x ++ [y]).zip (List.replicate n x ++ [y]) =
      List.replicate n (x, x) ++ [(x, y)] := by
  induction n with
  | zero => rfl
  | succ m ih =>
    have h1 : List.replicate (m + 1 + 1) x ++ [y] =
        x :: (List.replicate (m + 1) x ++ [y]) := by
      rw [List.replicate_succ, List.cons_append]
    have h2 : List.replicate (m + 1) x ++ [y] =
        x :: (List.replicate m x ++ [y]) := by
      rw [List.replicate_succ, List.cons_append]
    rw [h1, h2, List.zip_cons_cons, ← h2, ih, List.replicate_succ,
      List.cons_append]

theorem tail_spike (n : ℕ) (x y : ℚ) :
    (List.replicate (n + 1) x ++ [y]).tail = List.replicate n x ++ [y] := by
  rw [List.replicate_succ, List.cons_append, List.tail_cons]

theorem logReturns_spike (n : ℕ) (x y : ℚ) :
    logReturns (List.replicate (n + 1) x ++ [y]) =
      List.replicate n 0 ++ [y - x] := by
  unfold logReturns
  rw [tail_spike, zip_spike_succ, List.map_append, List.map_replicate,
    List.map_singleton]
  simp

theorem logReturns_flat (m : ℕ) (x : ℚ) :
    logReturns (List.replicate (m + 1) x) = List.replicate m 0 := by
  cases m with
  | zero => rfl
  | succ k =>
    rw [replicate_concat (k + 1) x, logReturns_spike, sub_self,
      ← replicate_concat k 0]

theorem zip_spike_spike (n : ℕ) (x y u v : ℚ) :
    (List.replicate n x ++ [u]).zip (List.replicate n y ++ [v]) =
      List.replicate n (x, y) ++ [(u, v)] := by
  induction n with
  | zero => rfl
  | succ m ih =>
    have h1 : List.replicate (m + 1) x ++ [u] =
        x :: (List.replicate m x ++ [u]) := by
      rw [List.replicate_succ, List.cons_append]
    have h2 : List.replicate (m + 1) y ++ [v] =
        y :: (List.replicate m y ++ [v]) := by
      rw [List.replicate_succ, List.cons_append]
    rw [h1, h2, List.zip_cons_cons, ih, List.replicate_succ, List.cons_append]

theorem zip_spike_flat (n : ℕ) (x u : ℚ) :
    (List.replicate n x ++ [u]).zip (List.replicate (n + 1) (0 : ℚ)) =
      List.replicate n (x, 0) ++ [(u, 0)] := by
  rw [replicate_concat n (0 : ℚ)]
  exact zip_spike_spike n x 0 u 0

theorem spreadOf_self (beta : ℚ) (l : List ℚ) :
    spreadOf beta l l = l.map fun x => x - beta * x := by
  unfold spreadOf
  rw [zip_self, List.map_map]
  rfl

/-! ## Evaluation of the statistics on the concrete series -/

theorem logReturns_spikeSeries : logReturns spikeSeries = List.replicate 118 0 ++ [1] := by
  unfold spikeSeries
  rw [(by norm_num : (119 : ℕ) = 118 + 1), logReturns_spike]
  norm_num

theorem logReturns_spikeDnSeries :
    logReturns spikeDnSeries = List.replicate 118 0 ++ [-1] := by
  unfold spikeDnSeries
  rw [(by norm_num : (119 : ℕ) = 118 + 1), logReturns_spike]
  norm_num

theorem logReturns_flatSeries : logReturns flatSeries = List.replicate 119 0 := by
  unfold flatSeries
  rw [(by norm_num : (120 : ℕ) = 119 + 1), logReturns_flat]

theorem corr_spike_flat (c t : ℚ) :
    corrLtB (List.replicate 118 0 ++ [c]) (List.replicate 119 0) t = false := by
  norm_num [corrLtB, lmean_flat, List.map_replicate, lsum_replicate]

theorem corr_ident :
    corrLtB (List.replicate 118 0 ++ [-1]) (List.replicate 118 0 ++ [-1])
      (11 / 20) = false := by
  have hS : lsum ((List.replicate 118 (0 : ℚ) ++ [-1]).map fun v =>
      (v - lmean (List.replicate 118 (0 : ℚ) ++ [-1])) ^ 2) = 118 / 119 := by
    simp only [lmean_spike, sqdev_spike]
    norm_num
  unfold corrLtB
  rw [if_neg (by simp)]
  simp only [corr_num_self, hS]
  norm_num

theorem regime_spike_flat (c : ℚ) (hc : c = 1 ∨ c = -1) :
    regime_ok default_config (List.replicate 119 0 ++ [c]) flatSeries = true := by
  have hlr : logReturns (List.replicate 119 0 ++ [c]) = List.replicate 118 0 ++ [c] := by
    rw [(by norm_num : (119 : ℕ) = 118 + 1), logReturns_spike]
    norm_num
  have hra : tailN (logReturns (List.replicate 119 0 ++ [c])) 400 =
      List.replicate 118 0 ++ [c] := by
    rw [hlr]; exact tailN_eq_self (by simp)
  have hrb : tailN (logReturns flatSeries) 400 = List.replicate 119 0 := by
    rw [logReturns_flatSeries]; exact tailN_eq_self (by simp)
  have hc2 : c ^ 2 = 1 := by rcases hc with rfl | rfl <;> norm_num
  unfold regime_ok
  rw [hra, hrb]
  norm_num [corr_spike_flat, default_config, realizedVolSq, var1_spike, var1_flat, hc2]

theorem regime_ident : regime_ok default_config spikeDnSeries spikeDnSeries = true := by
  have hra : tailN (logReturns spikeDnSeries) 400 = List.replicate 118 0 ++ [-1] := by
    rw [logReturns_spikeDnSeries]; exact tailN_eq_self (by simp)
  unfold regime_ok
  rw [hra]
  norm_num [corr_ident, default_config, realizedVolSq, var1_spike]

theorem beta_spike_flat (c : ℚ) :
    ols_beta (List.replicate 119 0 ++ [c]) flatSeries = 1 := by
  unfold flatSeries
  norm_num [ols_beta, varPop_flat]

theorem beta_ident : ols_beta spikeDnSeries spikeDnSeries = 120 / 119 := by
  unfold spikeDnSeries
  norm_num [ols_beta, cov1_self, var1_spike, varPop_spike]

theorem spread_spike_flat (c : ℚ) :
    spreadOf 1 (List.replicate 119 0 ++ [c]) flatSeries =
      List.replicate 119 0 ++ [c] := by
  unfold spreadOf flatSeries
  rw [(by norm_num : (120 : ℕ) = 119 + 1), zip_spike_flat]
  simp

theorem spread_ident :
    spreadOf (120 / 119) spikeDnSeries spikeDnSeries =
      List.replicate 119 0 ++ [1 / 119] := by
  rw [spreadOf_self]
  unfold spikeDnSeries
  rw [List.map_append, List.map_replicate]
  norm_num

theorem zscore_spike_num (c : ℚ) (hc : c ≠ 0) :
    zscoreNum (List.replicate 119 0 ++ [c]) = 119 * c / 120 := by
  unfold zscoreNum
  rw [if_neg (by simp), if_neg (by rw [var1_spike 119 c (by norm_num)]; positivity),
    llast_spike, lmean_spike]
  push_cast
  ring

theorem zscore_spike_den (c : ℚ) (hc : c ≠ 0) :
    zscoreDen (List.replicate 119 0 ++ [c]) = c ^ 2 / 120 := by
  unfold zscoreDen
  rw [if_neg (by simp), if_neg (by rw [var1_spike 119 c (by norm_num)]; positivity),
    var1_spike 119 c (by norm_num)]
  norm_num

/-! ## Evaluation of the signal engine on the concrete scenarios -/

theorem regime_sf : regime_ok default_config spikeSeries flatSeries = true := by
  unfold spikeSeries
  exact regime_spike_flat 1 (Or.inl rfl)

theorem regime_df : regime_ok default_config spikeDnSeries flatSeries = true := by
  unfold spikeDnSeries
  exact regime_spike_flat (-1) (Or.inr rfl)

theorem beta_sf : ols_beta spikeSeries flatSeries = 1 := by
  unfold spikeSeries
  exact beta_spike_flat 1

theorem beta_df : ols_beta spikeDnSeries flatSeries = 1 := by
  unfold spikeDnSeries
  exact beta_spike_flat (-1)

theorem spread_sf : spreadOf 1 spikeSeries flatSeries = spikeSeries := by
  unfold spikeSeries
  exact spread_spike_flat 1

theorem spread_df : spreadOf 1 spikeDnSeries flatSeries = spikeDnSeries := by
  unfold spikeDnSeries
  exact spread_spike_flat (-1)

theorem zgtb_spike : zscoreGtB spikeSeries (23 / 10) = true := by
  unfold spikeSeries zscoreGtB
  rw [if_pos (by norm_num), zscore_spike_num 1 one_ne_zero,
    zscore_spike_den 1 one_ne_zero]
  norm_num

theorem zNum_sf : zscoreNum spikeSeries = 119 / 120 := by
  unfold spikeSeries
  rw [zscore_spike_num 1 one_ne_zero]
  norm_num

theorem zDen_sf : zscoreDen spikeSeries = 1 / 120 := by
  unfold spikeSeries
  rw [zscore_spike_den 1 one_ne_zero]
  norm_num

theorem zgtb_spikeDn_false : zscoreGtB spikeDnSeries (23 / 10) = false := by
  unfold spikeDnSeries zscoreGtB
  rw [if_pos (by norm_num), zscore_spike_num (-1) (by norm_num)]
  norm_num

theorem zltb_spikeDn : zscoreLtB spikeDnSeries (-(23 / 10)) = true := by
  unfold spikeDnSeries zscoreLtB
  rw [if_neg (by norm_num), zscore_spike_num (-1) (by norm_num),
    zscore_spike_den (-1) (by norm_num)]
  norm_num

theorem zNum_df : zscoreNum spikeDnSeries = -(119 / 120) := by
  unfold spikeDnSeries
  rw [zscore_spike_num (-1) (by norm_num)]
  norm_num

theorem zDen_df : zscoreDen spikeDnSeries = 1 / 120 := by
  unfold spikeDnSeries
  rw [zscore_spike_den (-1) (by norm_num)]
  norm_num

theorem sig_spike_flat (env : Env) (positions : List (PairKey × Position)) (a b : String)
    (ha : env.logClose a = spikeSeries) (hb : env.logClose b = flatSeries)
    (hlook : posLookup positions (a, b) = none) :
    compute_signal default_config env positions a b =
      ⟨"ENTER_LONGB_SHORTA", 119 / 120, 1 / 120, 1, "z high"⟩ := by
  have hla : tailN (env.logClose a) default_config.lookback = spikeSeries := by
    rw [ha]; exact tailN_eq_self (by norm_num [spikeSeries, default_config])
  have hlb : tailN (env.logClose b) default_config.lookback = flatSeries := by
    rw [hb]; exact tailN_eq_self (by norm_num [flatSeries, default_config])
  unfold compute_signal
  rw [hla, hlb, hlook]
  rw [if_neg (by norm_num [spikeSeries, flatSeries])]
  rw [if_neg (by simp [regime_sf])]
  simp only [show default_config.beta_window = 720 from rfl,
    show default_config.z_entry = 23 / 10 from rfl,
    show tailN spikeSeries 720 = spikeSeries from
      tailN_eq_self (by norm_num [spikeSeries]),
    show tailN flatSeries 720 = flatSeries from
      tailN_eq_self (by norm_num [flatSeries]),
    beta_sf, spread_sf,
    show tailN spikeSeries 400 = spikeSeries from
      tailN_eq_self (by norm_num [spikeSeries]),
    zgtb_spike, if_true, zNum_sf, zDen_sf]

theorem sig_spikeDn_flat (env : Env) (positions : List (PairKey × Position)) (a b : String)
    (ha : env.logClose a = spikeDnSeries) (hb : env.logClose b = flatSeries)
    (hlook : posLookup positions (a, b) = none) :
    compute_signal default_config env positions a b =
      ⟨"ENTER_LONGA_SHORTB", -(119 / 120), 1 / 120, 1, "z low"⟩ := by
  have hla : tailN (env.logClose a) default_config.lookback = spikeDnSeries := by
    rw [ha]; exact tailN_eq_self (by norm_num [spikeDnSeries, default_config])
  have hlb : tailN (env.logClose b) default_config.lookback = flatSeries := by
    rw [hb]; exact tailN_eq_self (by norm_num [flatSeries, default_config])
  unfold compute_signal
  rw [hla, hlb, hlook]
  rw [if_neg (by norm_num [spikeDnSeries, flatSeries])]
  rw [if_neg (by simp [regime_df])]
  simp only [show default_config.beta_window = 720 from rfl,
    show default_config.z_entry = 23 / 10 from rfl,
    show tailN spikeDnSeries 720 = spikeDnSeries from
      tailN_eq_self (by norm_num [spikeDnSeries]),
    show tailN flatSeries 720 = flatSeries from
      tailN_eq_self (by norm_num [flatSeries]),
    beta_df, spread_df,
    show tailN spikeDnSeries 400 = spikeDnSeries from
      tailN_eq_self (by norm_num [spikeDnSeries]),
    zgtb_spikeDn_false, zltb_spikeDn, if_true, Bool.false_eq_true, if_false,
    zNum_df, zDen_df]

theorem zgtb_identSpread :
    zscoreGtB (List.replicate 119 0 ++ [1 / 119]) (23 / 10) = true := by
  unfold zscoreGtB
  rw [if_pos (by norm_num), zscore_spike_num (1 / 119) (by norm_num),
    zscore_spike_den (1 / 119) (by norm_num)]
  norm_num

theorem sig_ident (env : Env) (positions : List (PairKey × Position)) (a b : String)
    (ha : env.logClose a = spikeDnSeries) (hb : env.logClose b = spikeDnSeries)
    (hlook : posLookup positions (a, b) = none) :
    compute_signal default_config env positions a b =
      ⟨"ENTER_LONGB_SHORTA", 1 / 120, 1 / 1699320, 120 / 119, "z high"⟩ := by
  have hla : tailN (env.logClose a) default_config.lookback = spikeDnSeries := by
    rw [ha]; exact tailN_eq_self (by norm_num [spikeDnSeries, default_config])
  have hlb : tailN (env.logClose b) default_config.lookback = spikeDnSeries := by
    rw [hb]; exact tailN_eq_self (by norm_num [spikeDnSeries, default_config])
  have hnum : zscoreNum (List.replicate 119 0 ++ [1 / 119]) = 1 / 120 := by
    rw [zscore_spike_num (1 / 119) (by norm_num)]
    norm_num
  have hden : zscoreDen (List.replicate 119 0 ++ [1 / 119]) = 1 / 1699320 := by
    rw [zscore_spike_den (1 / 119) (by norm_num)]
    norm_num
  unfold compute_signal
  rw [hla, hlb, hlook]
  rw [if_neg (by norm_num [spikeDnSeries])]
  rw [if_neg (by simp [regime_ident])]
  simp only [show default_config.beta_window = 720 from rfl,
    show default_config.z_entry = 23 / 10 from rfl,
    show tailN spikeDnSeries 720 = spikeDnSeries from
      tailN_eq_self (by norm_num [spikeDnSeries]),
    beta_ident, spread_ident,
    show tailN (List.replicate 119 0 ++ [1 / 119]) 400 =
        List.replicate 119 0 ++ [1 / 119] from tailN_eq_self (by simp),
    zgtb_identSpread, if_true, hnum, hden]

theorem beta_ff : ols_beta flatSeries flatSeries = 1 := by
  unfold flatSeries
  norm_num [ols_beta, varPop_flat]

theorem spread_ff : spreadOf 1 flatSeries flatSeries = flatSeries := by
  rw [spreadOf_self]
  unfold flatSeries
  rw [List.map_replicate]
  norm_num

theorem zNum_ff : zscoreNum flatSeries = 0 := by
  unfold zscoreNum flatSeries
  rw [if_neg (by simp), if_pos (var1_flat 120)]

theorem zDen_ff : zscoreDen flatSeries = 1 := by
  unfold zscoreDen flatSeries
  rw [if_neg (by simp), if_pos (var1_flat 120)]

theorem sig_stale_exit (env : Env) (positions : List (PairKey × Position))
    (a b : String) (pos : Position)
    (ha : env.logClose a = flatSeries) (hb : env.logClose b = flatSeries)
    (hlook : posLookup positions (a, b) = some pos)
    (hts : pos.entry_ts = -1000000) (hnow : env.now = 0) :
    compute_signal default_config env positions a b =
      ⟨"EXIT", 0, 1, 1, "max hold"⟩ := by
  have hla : tailN (env.logClose a) default_config.lookback = flatSeries := by
    rw [ha]; exact tailN_eq_self (by norm_num [flatSeries, default_config])
  have hlb : tailN (env.logClose b) default_config.lookback = flatSeries := by
    rw [hb]; exact tailN_eq_self (by norm_num [flatSeries, default_config])
  unfold compute_signal
  rw [hla, hlb, hlook]
  rw [if_neg (by norm_num [flatSeries])]
  rw [if_neg (by simp)]
  simp only [show default_config.beta_window = 720 from rfl,
    show tailN flatSeries 720 = flatSeries from
      tailN_eq_self (by norm_num [flatSeries]),
    beta_ff, spread_ff,
    show tailN flatSeries 400 = flatSeries from
      tailN_eq_self (by norm_num [flatSeries]),
    hts, hnow, zNum_ff, zDen_ff]
  rw [if_pos (by norm_num [default_config])]

/-! ## Structural lemmas about the controller -/

theorem posErase_length_le (ps : List (PairKey × Position)) (k : PairKey) :
    (posErase ps k).length ≤ ps.length :=
  List.length_filter_le _ _

theorem posInsert_length_le (ps : List (PairKey × Position)) (k : PairKey)
    (v : Position) : (posInsert ps k v).length ≤ ps.length + 1 := by
  unfold posInsert
  split
  · rw [List.length_map]
    omega
  · rw [List.length_append]
    simp

theorem posLookup_erase_ne (ps : List (PairKey × Position)) (k k' : PairKey)
    (h : k' ≠ k) : posLookup (posErase ps k) k' = posLookup ps k' := by
  induction ps with
  | nil => rfl
  | cons e t ih =>
    unfold posErase at ih ⊢
    rw [List.filter_cons]
    by_cases he : e.1 = k
    · rw [if_neg (by simp [he])]
      rw [ih]
      have hne : ¬e.1 = k' := by
        rw [he]
        exact fun hk => h hk.symm
      conv_rhs => rw [posLookup]
      rw [if_neg hne]
    · rw [if_pos (by simp [he])]
      by_cases he2 : e.1 = k'
      · rw [posLookup, if_pos he2]
        conv_rhs => rw [posLookup]
        rw [if_pos he2]
      · rw [posLookup, if_neg he2]
        rw [ih]
        conv_rhs => rw [posLookup]
        rw [if_neg he2]

theorem can_trade_fields (env : Env) (s : BotState) (c : Bool) :
    ((can_trade env s c).2.positions = s.positions ∧
      (can_trade env s c).2.cooldown_until_ts = s.cooldown_until_ts) ∧
      (can_trade env s c).2.consecutive_errors = s.consecutive_errors := by
  unfold can_trade
  split
  · exact ⟨⟨rfl, rfl⟩, rfl⟩
  · split
    · exact ⟨⟨rfl, rfl⟩, rfl⟩
    · split
      · exact ⟨⟨rfl, rfl⟩, rfl⟩
      · exact ⟨⟨rfl, rfl⟩, rfl⟩

theorem can_trade_halted (env : Env) (s : BotState) (c : Bool)
    (h : s.halted = true) : can_trade env s c = (false, s) := by
  unfold can_trade
  rw [if_pos h]

theorem can_trade_cooldown (env : Env) (s : BotState) (hh : s.halted = false)
    (hcd : env.now < s.cooldown_until_ts) : can_trade env s true = (false, s) := by
  unfold can_trade
  rw [if_neg (by simp [hh]), if_pos (by simp [hcd])]

theorem run_pairs_nil (cfg : Config) (env : Env) (s : BotState) :
    run_pairs cfg env s [] = (s, []) := rfl

theorem run_pairs_cons (cfg : Config) (env : Env) (s : BotState) (p : PairKey)
    (l : List PairKey) :
    run_pairs cfg env s (p :: l) =
      ((run_pairs cfg env (step_pair cfg env s p).1 l).1,
        (step_pair cfg env s p).2 ++
          (run_pairs cfg env (step_pair cfg env s p).1 l).2) := rfl

theorem step_halted (cfg : Config) (env : Env) (s : BotState)
    (pairs : List PairKey) (h : s.halted = true) : step cfg env s pairs = (s, []) := by
  unfold step
  rw [can_trade_halted env s false h]
  simp

theorem step_pair_raises_eq (cfg : Config) (env : Env) (s : BotState) (p : PairKey)
    (h : env.raises p = true) :
    step_pair cfg env s p =
      ({ s with
          consecutive_errors := s.consecutive_errors + 1,
          halted := s.halted || decide (8 ≤ s.consecutive_errors + 1) }, []) := by
  unfold step_pair
  rw [if_pos h]

theorem step_pair_success_errors (cfg : Config) (env : Env) (s : BotState) (p : PairKey)
    (h : env.raises p = false) :
    (step_pair cfg env s p).1.consecutive_errors = 0 := by
  unfold step_pair
  rw [if_neg (by simp [h])]
  dsimp only
  split
  · split
    · rfl
    · rfl
  · split
    · split
      · rfl
      · rfl
    · rfl

theorem can_trade_entry_cd (env : Env) (s : BotState)
    (hcd : env.now < s.cooldown_until_ts) : can_trade env s true = (false, s) := by
  unfold can_trade
  split
  · rfl
  · rw [if_pos (by exact ⟨rfl, hcd⟩)]

theorem step_pair_open (cfg : Config) (env : Env) (s : BotState) (p : PairKey)
    (pos : Position) (hr : env.raises p = false)
    (hl : posLookup s.positions p = some pos) :
    step_pair cfg env s p =
      (if (compute_signal cfg env s.positions p.1 p.2).action = "EXIT" then
        ({ (live_exit env s p pos).1 with consecutive_errors := 0 },
          (live_exit env s p pos).2)
      else ({ s with consecutive_errors := 0 }, [])) := by
  unfold step_pair
  rw [if_neg (by simp [hr])]
  dsimp only
  rw [hl]

theorem step_pair_fresh (cfg : Config) (env : Env) (s : BotState) (p : PairKey)
    (hr : env.raises p = false) (hl : posLookup s.positions p = none) :
    step_pair cfg env s p =
      (if startsWithB (compute_signal cfg env s.positions p.1 p.2).action "ENTER" = true then
        (if (can_trade env s true).1 = true then
          ({ (live_enter env (can_trade env s true).2 p.1 p.2
              (compute_signal cfg env s.positions p.1 p.2).action
              (env.lastPrice p.1) (env.lastPrice p.2)).1 with consecutive_errors := 0 },
            (live_enter env (can_trade env s true).2 p.1 p.2
              (compute_signal cfg env s.positions p.1 p.2).action
              (env.lastPrice p.1) (env.lastPrice p.2)).2)
        else ({ (can_trade env s true).2 with consecutive_errors := 0 }, []))
      else ({ s with consecutive_errors := 0 }, [])) := by
  unfold step_pair
  rw [if_neg (by simp [hr])]
  dsimp only
  rw [hl]

theorem live_enter_untouched (env : Env) (s : BotState) (a b action : String)
    (pa pb : ℚ) :
    (live_enter env s a b action pa pb).1.cooldown_until_ts = s.cooldown_until_ts ∧
      (live_enter env s a b action pa pb).1.halted = s.halted ∧
      (live_enter env s a b action pa pb).1.consecutive_errors =
        s.consecutive_errors := by
  unfold live_enter
  dsimp only
  split <;> split <;> exact ⟨rfl, rfl, rfl⟩

theorem live_enter_length (env : Env) (s : BotState) (a b action : String)
    (pa pb : ℚ) :
    (live_enter env s a b action pa pb).1.positions.length ≤
      s.positions.length + 1 := by
  unfold live_enter
  dsimp only
  split <;> [skip; skip] <;> split
  · exact posInsert_length_le _ _ _
  · exact Nat.le_succ _
  · exact posInsert_length_le _ _ _
  · exact Nat.le_succ _

theorem live_enter_cases (env : Env) (s : BotState) (a b action : String)
    (pa pb : ℚ) :
    (live_enter env s a b action pa pb).1.positions = s.positions ∨
      ∃ v : Position, v.ticket_a ≠ 0 ∧ v.ticket_b ≠ 0 ∧
        (live_enter env s a b action pa pb).1.positions =
          posInsert s.positions (a, b) v := by
  unfold live_enter
  dsimp only
  split <;> [skip; skip] <;> split
  · rename_i hcond
    exact Or.inr ⟨_, hcond.1, hcond.2, rfl⟩
  · exact Or.inl rfl
  · rename_i hcond
    exact Or.inr ⟨_, hcond.1, hcond.2, rfl⟩
  · exact Or.inl rfl

theorem step_pair_halted_mono (cfg : Config) (env : Env) (s : BotState)
    (p : PairKey) (h : s.halted = true) :
    (step_pair cfg env s p).1.halted = true := by
  unfold step_pair
  split
  · dsimp only
    show (s.halted || _) = true
    rw [h, Bool.true_or]
  · dsimp only
    split
    · split
      · exact h
      · exact h
    · split
      · split
        · rename_i hct
          rw [can_trade_halted env s true h] at hct
          simp at hct
        · show (can_trade env s true).2.halted = true
          rw [can_trade_halted env s true h]
          exact h
      · exact h

theorem step_pair_length (cfg : Config) (env : Env) (s : BotState) (p : PairKey) :
    (step_pair cfg env s p).1.positions.length ≤ s.positions.length + 1 := by
  unfold step_pair
  split
  · exact Nat.le_succ _
  · dsimp only
    split
    · split
      · exact le_trans (posErase_length_le s.positions p) (Nat.le_succ _)
      · exact Nat.le_succ _
    · split
      · split
        · have h1 := live_enter_length env (can_trade env s true).2 p.1 p.2
            (compute_signal cfg env s.positions p.1 p.2).action
            (env.lastPrice p.1) (env.lastPrice p.2)
          rw [(can_trade_fields env s true).1.1] at h1
          exact h1
        · have h2 : (can_trade env s true).2.positions.length ≤
              s.positions.length + 1 := by
            rw [(can_trade_fields env s true).1.1]
            exact Nat.le_succ _
          exact h2
      · exact Nat.le_succ _

theorem live_exit_cooldown_cases (env : Env) (s : BotState) (k : PairKey)
    (pos : Position) :
    (live_exit env s k pos).1.cooldown_until_ts = env.now + 30 * 60 ∨
      (live_exit env s k pos).1.cooldown_until_ts = s.cooldown_until_ts := by
  unfold live_exit
  dsimp only
  repeat' split
  all_goals first | exact Or.inl rfl | exact Or.inr rfl

theorem live_exit_positions (env : Env) (s : BotState) (k : PairKey)
    (pos : Position) :
    (live_exit env s k pos).1.positions = posErase s.positions k ∧
      (live_exit env s k pos).1.halted = s.halted ∧
      (live_exit env s k pos).2 =
        [BrokerCall.closeTicket pos.ticket_a, BrokerCall.closeTicket pos.ticket_b] := by
  unfold live_exit
  exact ⟨rfl, rfl, rfl⟩

theorem step_pair_cd (cfg : Config) (env : Env) (s : BotState) (p : PairKey)
    (hcd : env.now < s.cooldown_until_ts) :
    (∀ c ∈ (step_pair cfg env s p).2, ∀ sym side v,
        c ≠ BrokerCall.openPos sym side v) ∧
      env.now < (step_pair cfg env s p).1.cooldown_until_ts := by
  by_cases hr : env.raises p = true
  · rw [step_pair_raises_eq cfg env s p hr]
    exact ⟨by simp, hcd⟩
  · rw [Bool.not_eq_true] at hr
    cases hl : posLookup s.positions p with
    | some pos =>
      rw [step_pair_open cfg env s p pos hr hl]
      split
      · constructor
        · intro c hc sym side v
          have hc2 : c ∈ [BrokerCall.closeTicket pos.ticket_a,
              BrokerCall.closeTicket pos.ticket_b] :=
            ((live_exit_positions env s p pos).2.2) ▸ hc
          rcases List.mem_cons.mp hc2 with rfl | hc3
          · simp
          · rcases List.mem_cons.mp hc3 with rfl | hc4
            · simp
            · simp at hc4
        · show env.now < (live_exit env s p pos).1.cooldown_until_ts
          rcases live_exit_cooldown_cases env s p pos with h | h
          · rw [h]
            have h30 : (0 : ℚ) < 30 * 60 := by norm_num
            linarith
          · rw [h]
            exact hcd
      · exact ⟨by simp, hcd⟩
    | none =>
      have hct : can_trade env s true = (false, s) := can_trade_entry_cd env s hcd
      rw [step_pair_fresh cfg env s p hr hl, hct]
      split
      · rw [if_neg (by simp)]
        exact ⟨by simp, hcd⟩
      · exact ⟨by simp, hcd⟩

theorem run_pairs_cd (cfg : Config) (env : Env) (l : List PairKey) :
    ∀ s : BotState, env.now < s.cooldown_until_ts →
      (∀ c ∈ (run_pairs cfg env s l).2, ∀ sym side v,
          c ≠ BrokerCall.openPos sym side v) ∧
        env.now < (run_pairs cfg env s l).1.cooldown_until_ts := by
  induction l with
  | nil =>
    intro s hcd
    exact ⟨by simp [run_pairs_nil], hcd⟩
  | cons p t ih =>
    intro s hcd
    rw [run_pairs_cons]
    dsimp only
    obtain ⟨h1, h2⟩ := step_pair_cd cfg env s p hcd
    obtain ⟨h3, h4⟩ := ih _ h2
    refine ⟨?_, h4⟩
    intro c hc sym side v
    rcases List.mem_append.mp hc with hc3 | hc3
    · exact h1 c hc3 sym side v
    · exact h3 c hc3 sym side v

theorem step_cd (cfg : Config) (env : Env) (s : BotState) (pairs : List PairKey)
    (hcd : env.now < s.cooldown_until_ts) :
    ∀ c ∈ (step cfg env s pairs).2, ∀ sym side v,
      c ≠ BrokerCall.openPos sym side v := by
  unfold step
  dsimp only
  split
  · simp
  · intro c hc sym side v
    have hcd2 : env.now < (can_trade env s false).2.cooldown_until_ts := by
      rw [(can_trade_fields env s false).1.2]
      exact hcd
    exact (run_pairs_cd cfg env _ _ hcd2).1 c hc sym side v

theorem run_pairs_length (cfg : Config) (env : Env) (l : List PairKey) :
    ∀ s : BotState, (run_pairs cfg env s l).1.positions.length ≤
      s.positions.length + l.length := by
  induction l with
  | nil =>
    intro s
    simp [run_pairs_nil]
  | cons p t ih =>
    intro s
    rw [run_pairs_cons]
    dsimp only
    have h1 := ih (step_pair cfg env s p).1
    have h2 := step_pair_length cfg env s p
    rw [List.length_cons]
    omega

theorem run_pairs_exit_only (cfg : Config) (env : Env) (l : List PairKey) :
    ∀ s : BotState, (∀ k ∈ l, (posLookup s.positions k).isSome = true) → l.Nodup →
      (run_pairs cfg env s l).1.positions.length ≤ s.positions.length ∧
        (∀ c ∈ (run_pairs cfg env s l).2, ∀ sym side v,
          c ≠ BrokerCall.openPos sym side v) := by
  induction l with
  | nil =>
    intro s _ _
    exact ⟨by simp [run_pairs_nil], by simp [run_pairs_nil]⟩
  | cons p t ih =>
    intro s hmem hnd
    rw [run_pairs_cons]
    dsimp only
    by_cases hr : env.raises p = true
    · rw [step_pair_raises_eq cfg env s p hr]
      dsimp only
      obtain ⟨ih1, ih2⟩ := ih ({ s with
          consecutive_errors := s.consecutive_errors + 1,
          halted := s.halted || decide (8 ≤ s.consecutive_errors + 1) })
        (fun k hk => hmem k (List.mem_cons_of_mem p hk)) (List.Nodup.of_cons hnd)
      refine ⟨ih1, ?_⟩
      intro c hc sym side v
      rw [List.nil_append] at hc
      exact ih2 c hc sym side v
    · rw [Bool.not_eq_true] at hr
      obtain ⟨pos, hl⟩ : ∃ pos, posLookup s.positions p = some pos := by
        have hm := hmem p (List.mem_cons_self p t)
        cases hpl : posLookup s.positions p with
        | none => rw [hpl] at hm; simp at hm
        | some q => exact ⟨q, rfl⟩
      rw [step_pair_open cfg env s p pos hr hl]
      split
      · dsimp only
        have hlu : ∀ k ∈ t, (posLookup (posErase s.positions p) k).isSome = true := by
          intro k hk
          have hne : k ≠ p := by
            intro he
            exact (List.nodup_cons.mp hnd).1 (he ▸ hk)
          rw [posLookup_erase_ne _ _ _ hne]
          exact hmem k (List.mem_cons_of_mem p hk)
        obtain ⟨ih1, ih2⟩ := ih
          ({ (live_exit env s p pos).1 with consecutive_errors := 0 }) hlu
          (List.Nodup.of_cons hnd)
        constructor
        · exact le_trans ih1 (posErase_length_le _ _)
        · intro c hc sym side v
          rcases List.mem_append.mp hc with hc3 | hc3
          · have hc4 : c ∈ [BrokerCall.closeTicket pos.ticket_a,
                BrokerCall.closeTicket pos.ticket_b] :=
              ((live_exit_positions env s p pos).2.2) ▸ hc3
            rcases List.mem_cons.mp hc4 with rfl | hc5
            · simp
            · rcases List.mem_cons.mp hc5 with rfl | hc6
              · simp
              · simp at hc6
          · exact ih2 c hc3 sym side v
      · dsimp only
        obtain ⟨ih1, ih2⟩ := ih ({ s with consecutive_errors := 0 })
          (fun k hk => hmem k (List.mem_cons_of_mem p hk)) (List.Nodup.of_cons hnd)
        refine ⟨ih1, ?_⟩
        intro c hc sym side v
        rw [List.nil_append] at hc
        exact ih2 c hc sym side v

theorem run_pairs_all_raise (cfg : Config) (env : Env) (l : List PairKey) :
    ∀ s : BotState, (∀ p ∈ l, env.raises p = true) →
      ((run_pairs cfg env s l).1.consecutive_errors =
          s.consecutive_errors + l.length ∧
        (run_pairs cfg env s l).1.positions = s.positions ∧
        (run_pairs cfg env s l).2 = []) ∧
      (s.halted = true → (run_pairs cfg env s l).1.halted = true) ∧
      (8 ≤ s.consecutive_errors + l.length → l ≠ [] →
        (run_pairs cfg env s l).1.halted = true) := by
  induction l with
  | nil =>
    intro s _
    exact ⟨⟨by simp [run_pairs_nil], by simp [run_pairs_nil], by simp [run_pairs_nil]⟩,
      fun h => by simpa [run_pairs_nil] using h,
      fun _ hne => absurd rfl hne⟩
  | cons p t ih =>
    intro s hall
    rw [run_pairs_cons, step_pair_raises_eq cfg env s p
      (hall p (List.mem_cons_self p t))]
    dsimp only
    obtain ⟨⟨ih1, ih2, ih3⟩, ih4, ih5⟩ := ih ({ s with
        consecutive_errors := s.consecutive_errors + 1,
        halted := s.halted || decide (8 ≤ s.consecutive_errors + 1) })
      (fun q hq => hall q (List.mem_cons_of_mem p hq))
    refine ⟨⟨?_, ih2, ?_⟩, ?_, ?_⟩
    · rw [ih1, List.length_cons]
      show s.consecutive_errors + 1 + t.length = s.consecutive_errors + (t.length + 1)
      omega
    · rw [List.nil_append]
      exact ih3
    · intro hh
      apply ih4
      show (s.halted || _) = true
      rw [hh, Bool.true_or]
    · intro hge _
      by_cases h8 : 8 ≤ s.consecutive_errors + 1
      · apply ih4
        show (s.halted || decide (8 ≤ s.consecutive_errors + 1)) = true
        rw [decide_eq_true h8, Bool.or_true]
      · have ht : t ≠ [] := by
          intro he
          subst he
          simp only [List.length_cons, List.length_nil] at hge
          omega
        apply ih5 _ ht
        show 8 ≤ s.consecutive_errors + 1 + t.length
        rw [List.length_cons] at hge
        omega

theorem step_allowed (cfg : Config) (env : Env) (s : BotState) (pairs : List PairKey)
    (hh : s.halted = false) (hrm : env.rmAllowed = true) :
    step cfg env s pairs =
      run_pairs cfg env s
        (if cfg.max_open_positions ≤ s.positions.length then s.positions.map (·.1)
          else pairs) := by
  unfold step
  rw [show can_trade env s false = (true, s) from by
    unfold can_trade
    rw [if_neg (by simp [hh]), if_neg (by simp), if_neg (by simp [hrm])]]
  simp

theorem enterLoop_spec (res : ℕ → Bool → BrokerResult) (a b sa sb : String)
    (va vb : ℚ) :
    (firstSuccAt res = some 1 →
      enterLoop res a b sa sb va vb 3 1 =
        ((res 1 true).order, (res 1 false).order,
          attemptCalls res a b sa sb va vb 1)) ∧
    (firstSuccAt res = some 2 →
      enterLoop res a b sa sb va vb 3 1 =
        ((res 2 true).order, (res 2 false).order,
          attemptCalls res a b sa sb va vb 1 ++
            attemptCalls res a b sa sb va vb 2)) ∧
    (firstSuccAt res = some 3 →
      enterLoop res a b sa sb va vb 3 1 =
        ((res 3 true).order, (res 3 false).order,
          attemptCalls res a b sa sb va vb 1 ++
            attemptCalls res a b sa sb va vb 2 ++
            attemptCalls res a b sa sb va vb 3)) ∧
    (firstSuccAt res = none →
      enterLoop res a b sa sb va vb 3 1 =
        (0, 0,
          attemptCalls res a b sa sb va vb 1 ++
            attemptCalls res a b sa sb va vb 2 ++
            attemptCalls res a b sa sb va vb 3)) := by
  cases h1a : (res 1 true).ok <;> cases h1b : (res 1 false).ok <;>
    cases h2a : (res 2 true).ok <;> cases h2b : (res 2 false).ok <;>
      cases h3a : (res 3 true).ok <;> cases h3b : (res 3 false).ok <;>
        simp [enterLoop, firstSuccAt, attemptCalls, h1a, h1b, h2a, h2b, h3a, h3b]

theorem pickLoop_length (k : ℕ) (l : List PairScore) :
    ∀ (picked : List (String × String)) (used : List String),
      picked.length < k → (pickLoop k l picked used).length ≤ k := by
  induction l with
  | nil =>
    intro picked used h
    exact le_of_lt h
  | cons p t ih =>
    intro picked used h
    unfold pickLoop
    split
    · exact ih picked used h
    · dsimp only
      split
      · rename_i hk
        simp only [List.length_append, List.length_singleton]
        omega
      · rename_i hk
        exact ih _ _ (by simp at hk ⊢; omega)

theorem pickLoop_disjoint (k : ℕ) (l : List PairScore) :
    ∀ (picked : List (String × String)) (used : List String),
      (∀ q ∈ picked, q.1 ∈ used ∧ q.2 ∈ used) →
      picked.Pairwise (fun q r => q.1 ≠ r.1 ∧ q.1 ≠ r.2 ∧ q.2 ≠ r.1 ∧ q.2 ≠ r.2) →
      (pickLoop k l picked used).Pairwise
        (fun q r => q.1 ≠ r.1 ∧ q.1 ≠ r.2 ∧ q.2 ≠ r.1 ∧ q.2 ≠ r.2) := by
  induction l with
  | nil =>
    intro picked used _ hpw
    exact hpw
  | cons p t ih =>
    intro picked used hinv hpw
    unfold pickLoop
    split
    · exact ih picked used hinv hpw
    · rename_i hfresh
      push_neg at hfresh
      have hpw2 : (picked ++ [(p.a, p.b)]).Pairwise
          (fun q r => q.1 ≠ r.1 ∧ q.1 ≠ r.2 ∧ q.2 ≠ r.1 ∧ q.2 ≠ r.2) := by
        rw [List.pairwise_append]
        refine ⟨hpw, List.pairwise_singleton _ _, ?_⟩
        intro q hq r hr
        rw [List.mem_singleton] at hr
        subst hr
        obtain ⟨h1, h2⟩ := hinv q hq
        dsimp only
        exact ⟨fun he => hfresh.1 (he ▸ h1), fun he => hfresh.2 (he ▸ h1),
          fun he => hfresh.1 (he ▸ h2), fun he => hfresh.2 (he ▸ h2)⟩
      dsimp only
      split
      · exact hpw2
      · apply ih
        · intro q hq
          rcases List.mem_append.mp hq with hq2 | hq2
          · obtain ⟨h1, h2⟩ := hinv q hq2
            constructor
            · exact List.mem_append.mpr (Or.inl h1)
            · exact List.mem_append.mpr (Or.inl h2)
          · rw [List.mem_singleton] at hq2
            subst hq2
            constructor
            · exact List.mem_append.mpr (Or.inr (by simp))
            · exact List.mem_append.mpr (Or.inr (by simp))
        · exact hpw2

theorem pickLoop_sublist (k : ℕ) (l : List PairScore) :
    ∀ (picked : List (String × String)) (used : List String),
      ∃ rest, pickLoop k l picked used = picked ++ rest ∧
        rest.Sublist (l.map fun p => (p.a, p.b)) := by
  induction l with
  | nil =>
    intro picked used
    exact ⟨[], by simp [pickLoop], by simp⟩
  | cons p t ih =>
    intro picked used
    unfold pickLoop
    split
    · obtain ⟨rest, h1, h2⟩ := ih picked used
      exact ⟨rest, h1, by rw [List.map_cons]; exact h2.cons _⟩
    · dsimp only
      split
      · exact ⟨[(p.a, p.b)], rfl, by rw [List.map_cons]; simp⟩
      · obtain ⟨rest, h1, h2⟩ := ih (picked ++ [(p.a, p.b)]) (used ++ [p.a, p.b])
        refine ⟨(p.a, p.b) :: rest, ?_, ?_⟩
        · rw [h1, List.append_assoc]
          rfl
        · rw [List.map_cons]
          exact h2.cons₂ _

theorem sw_enterB : startsWithB "ENTER_LONGB_SHORTA" "ENTER" = true := by decide

theorem sw_enterA : startsWithB "ENTER_LONGA_SHORTB" "ENTER" = true := by decide

theorem enter_many (s : BotState) (a b : String) :
    live_enter envManyEnter s a b "ENTER_LONGB_SHORTA" 1 1 =
      ({ s with positions := posInsert s.positions (a, b) (enteredPos a b) },
        [.openPos a "SELL" 1, .openPos b "BUY" 1]) := by
  simp [live_enter, enterLoop, envManyEnter, baseEnv, enteredPos]

theorem steppair_many (s : BotState) (a b : String)
    (ha : envManyEnter.logClose a = spikeSeries)
    (hb : envManyEnter.logClose b = flatSeries)
    (hlook : posLookup s.positions (a, b) = none)
    (hh : s.halted = false) (hcd : s.cooldown_until_ts = 0) :
    step_pair default_config envManyEnter s (a, b) =
      ({ s with
          positions := posInsert s.positions (a, b) (enteredPos a b),
          consecutive_errors := 0 },
        [.openPos a "SELL" 1, .openPos b "BUY" 1]) := by
  have hct : can_trade envManyEnter s true = (true, s) := by
    unfold can_trade
    rw [if_neg (by simp [hh]),
      if_neg (by rw [hcd]; simp [show envManyEnter.now = (0 : ℚ) from rfl]),
      if_neg (by simp [show envManyEnter.rmAllowed = true from rfl])]
  rw [step_pair_fresh default_config envManyEnter s (a, b) rfl hlook,
    sig_spike_flat envManyEnter s.positions a b ha hb hlook]
  dsimp only
  rw [if_pos sw_enterB, hct]
  dsimp only
  rw [if_pos rfl, show envManyEnter.lastPrice a = 1 from rfl,
    show envManyEnter.lastPrice b = 1 from rfl, enter_many s a b]

set_option maxRecDepth 8192 in
theorem c2_cycle_eval :
    (step default_config envManyEnter emptyState
        [("A1", "B1"), ("A2", "B2"), ("A3", "B3")]).1.positions =
      [(("A1", "B1"), enteredPos "A1" "B1"),
        (("A2", "B2"), enteredPos "A2" "B2"),
        (("A3", "B3"), enteredPos "A3" "B3")] := by
  rw [step_allowed default_config envManyEnter emptyState _ rfl rfl,
    if_neg (by norm_num [default_config, emptyState])]
  rw [run_pairs_cons, steppair_many emptyState "A1" "B1" rfl rfl rfl rfl rfl]
  dsimp only
  show (run_pairs default_config envManyEnter
      ⟨[(("A1", "B1"), enteredPos "A1" "B1")], 0, false, 0⟩
      [("A2", "B2"), ("A3", "B3")]).1.positions = _
  rw [run_pairs_cons,
    steppair_many ⟨[(("A1", "B1"), enteredPos "A1" "B1")], 0, false, 0⟩
      "A2" "B2" rfl rfl rfl rfl rfl]
  dsimp only
  show (run_pairs default_config envManyEnter
      ⟨[(("A1", "B1"), enteredPos "A1" "B1"),
        (("A2", "B2"), enteredPos "A2" "B2")], 0, false, 0⟩
      [("A3", "B3")]).1.positions = _
  rw [run_pairs_cons,
    steppair_many ⟨[(("A1", "B1"), enteredPos "A1" "B1"),
      (("A2", "B2"), enteredPos "A2" "B2")], 0, false, 0⟩
      "A3" "B3" rfl rfl rfl rfl rfl]
  dsimp only
  rw [run_pairs_nil]
  rfl

theorem enter_longA (s : BotState) :
    live_enter envLongA s "A" "B" "ENTER_LONGA_SHORTB" 1 1 =
      ({ s with positions := posInsert s.positions ("A", "B") (enteredPos "A" "B") },
        [.openPos "A" "SELL" 1, .openPos "B" "BUY" 1]) := by
  simp [live_enter, enterLoop, envLongA, baseEnv, enteredPos]

set_option maxRecDepth 8192 in
theorem steppair_longA :
    step_pair default_config envLongA emptyState ("A", "B") =
      ({ emptyState with
          positions := posInsert emptyState.positions ("A", "B") (enteredPos "A" "B"),
          consecutive_errors := 0 },
        [.openPos "A" "SELL" 1, .openPos "B" "BUY" 1]) := by
  have hct : can_trade envLongA emptyState true = (true, emptyState) := by
    unfold can_trade
    rw [if_neg (by simp [emptyState]),
      if_neg (by simp [emptyState, show envLongA.now = (0 : ℚ) from rfl]),
      if_neg (by simp [show envLongA.rmAllowed = true from rfl])]
  rw [step_pair_fresh default_config envLongA emptyState ("A", "B") rfl rfl,
    sig_spikeDn_flat envLongA emptyState.positions "A" "B" rfl rfl rfl]
  dsimp only
  rw [if_pos sw_enterA, hct]
  dsimp only
  rw [if_pos rfl, show envLongA.lastPrice "A" = 1 from rfl,
    show envLongA.lastPrice "B" = 1 from rfl, enter_longA emptyState]

set_option maxRecDepth 8192 in
theorem steppair_loss_exit :
    step_pair default_config envLossExit staleState ("A", "B") =
      (⟨[], 30 * 60, false, 0⟩,
        [.closeTicket 7, .closeTicket 8]) := by
  rw [step_pair_open default_config envLossExit staleState ("A", "B")
      stalePosition rfl rfl,
    sig_stale_exit envLossExit staleState.positions "A" "B" stalePosition
      rfl rfl rfl rfl rfl]
  dsimp only
  rw [if_pos rfl]
  simp [live_exit, envLossExit, baseEnv, staleState, stalePosition, posErase]

theorem sw_skip : startsWithB "SKIP" "ENTER" = false := by decide

theorem sig_skip_short (cfg : Config) (env : Env)
    (positions : List (PairKey × Position)) (a b : String)
    (h : (tailN (env.logClose a) cfg.lookback).length < 120 ∨
      (tailN (env.logClose b) cfg.lookback).length < 120) :
    compute_signal cfg env positions a b = ⟨"SKIP", 0, 1, 1, "not enough data"⟩ := by
  unfold compute_signal
  rw [if_pos h]

theorem step_pair_skip_keeps (cfg : Config) (env : Env) (s : BotState) (p : PairKey)
    (hr : env.raises p = false)
    (hsig : (compute_signal cfg env s.positions p.1 p.2).action = "SKIP") :
    (step_pair cfg env s p).1.positions = s.positions ∧
      (step_pair cfg env s p).2 = [] := by
  cases hl : posLookup s.positions p with
  | none =>
    rw [step_pair_fresh cfg env s p hr hl, if_neg (by rw [hsig, sw_skip]; simp)]
    exact ⟨rfl, rfl⟩
  | some pos =>
    rw [step_pair_open cfg env s p pos hr hl, if_neg (by rw [hsig]; simp)]
    exact ⟨rfl, rfl⟩

theorem posLookup_isSome_of_mem_keys (ps : List (PairKey × Position)) (k : PairKey)
    (h : k ∈ ps.map (·.1)) : (posLookup ps k).isSome = true := by
  induction ps with
  | nil => simp at h
  | cons e t ih =>
    rw [List.map_cons, List.mem_cons] at h
    rw [posLookup]
    by_cases he : e.1 = k
    · rw [if_pos he]
      rfl
    · rw [if_neg he]
      rcases h with h | h
    
      · exact absurd h.symm he
      · exact ih h

theorem posInsert_mem (ps : List (PairKey × Position)) (k : PairKey) (v : Position)
    (q : PairKey × Position) (h : q ∈ posInsert ps k v) :
    q ∈ ps ∨ q = (k, v) := by
  unfold posInsert at h
  split at h
  · rw [List.mem_map] at h
    obtain ⟨e, he, heq⟩ := h
    by_cases hek : e.1 = k
    · rw [if_pos hek] at heq
      exact Or.inr heq.symm
    · rw [if_neg hek] at heq
      exact Or.inl (heq ▸ he)
  · rcases List.mem_append.mp h with h | h
    · exact Or.inl h
    · rw [List.mem_singleton] at h
      exact Or.inr h

theorem firstSuccAt_cases (res : ℕ → Bool → BrokerResult) (j : ℕ)
    (h : firstSuccAt res = some j) : j = 1 ∨ j = 2 ∨ j = 3 := by
  unfold firstSuccAt at h
  split at h
  · exact Or.inl (Option.some_injective _ h).symm
  · split at h
    · exact Or.inr (Or.inl (Option.some_injective _ h).symm)
    · split at h
      · exact Or.inr (Or.inr (Option.some_injective _ h).symm)
      · exact absurd h (by simp)

/-! ## Claim theorems -/

/-- C1: the claim says that for an ENTER with z below the negated entry
threshold (action `ENTER_LONGA_SHORTB`, long-A/short-B) leg A is opened
BUY and leg B SELL.  The code violates this: `_live_enter` derives the
sides by comparing the action against the literal `"ENTER_A_LONG"`, a tag
`_compute_signal` never emits, so leg A is always opened SELL and leg B
BUY.  This theorem evaluates the embedded controller at a concrete
environment whose pair ("A", "B") produces `ENTER_LONGA_SHORTB` and shows
the legs opened SELL/BUY nonetheless. -/
theorem c1_enter_direction_bug :
    (compute_signal default_config envLongA [] "A" "B").action =
      "ENTER_LONGA_SHORTB" ∧
    (step default_config envLongA emptyState [("A", "B")]).2 =
      [BrokerCall.openPos "A" "SELL" 1, BrokerCall.openPos "B" "BUY" 1] ∧
    (step default_config envLongA emptyState [("A", "B")]).1.positions =
      [(("A", "B"), enteredPos "A" "B")] ∧
    (enteredPos "A" "B").side_a = "SELL" ∧ (enteredPos "A" "B").side_b = "BUY" := by
  have hstep : step default_config envLongA emptyState [("A", "B")] =
      (⟨[(("A", "B"), enteredPos "A" "B")], 0, false, 0⟩,
        [BrokerCall.openPos "A" "SELL" 1, BrokerCall.openPos "B" "BUY" 1]) := by
    rw [step_allowed default_config envLongA emptyState _ rfl rfl,
      if_neg (by norm_num [default_config, emptyState]),
      run_pairs_cons, steppair_longA]
    dsimp only
    rw [run_pairs_nil]
    rfl
  refine ⟨?_, ?_, ?_, rfl, rfl⟩
  · rw [sig_spikeDn_flat envLongA [] "A" "B" rfl rfl rfl]
  · rw [hstep]
  · rw [hstep]

/-- C3 counterexample: on a concrete pair of 50-point series with nonzero
variance, `ols_beta` returns 50/49 while the standard OLS slope is 1, so
`ols_beta` does not return the standard OLS regression slope. -/
theorem c3_counterexample :
    ols_beta (List.replicate 49 0 ++ [1]) (List.replicate 49 0 ++ [1]) = 50 / 49 ∧
    olsSlopeSpec (List.replicate 49 0 ++ [1]) (List.replicate 49 0 ++ [1]) = 1 ∧
    (50 : ℚ) / 49 ≠ 1 := by
  refine ⟨?_, ?_, by norm_num⟩
  · norm_num [ols_beta, cov1_self, var1_spike, varPop_spike]
  · have hS : lsum ((List.replicate 49 (0 : ℚ) ++ [1]).map fun v =>
        (v - lmean (List.replicate 49 (0 : ℚ) ++ [1])) ^ 2) = 49 / 50 := by
      simp only [lmean_spike, sqdev_spike]
      norm_num
    unfold olsSlopeSpec
    rw [corr_num_self, hS]
    norm_num

/-- C3 (amended): `ols_beta` returns exactly 1.0 when either series has
fewer than 50 points or `x` has zero variance; on longer equal-length
inputs with nonzero variance it returns the unbiased (ddof-1) sample
covariance divided by the population (ddof-0) variance of `x`, which is
`n/(n-1)` times the standard OLS slope — not the OLS slope itself. -/
theorem c3_ols_beta_amended (y x : List ℚ) :
    ((y.length < 50 ∨ x.length < 50) → ols_beta y x = 1) ∧
    (varPop x = 0 → ols_beta y x = 1) ∧
    (y.length = x.length → 50 ≤ x.length → varPop x ≠ 0 →
      ols_beta y x = (x.length : ℚ) / ((x.length : ℚ) - 1) * olsSlopeSpec y x) := by
  refine ⟨?_, ?_, ?_⟩
  · intro h
    unfold ols_beta
    rw [if_pos h]
  · intro h
    unfold ols_beta
    rw [h]
    simp
  · intro hlen h50 hv
    have hn : (50 : ℚ) ≤ (x.length : ℚ) := by exact_mod_cast h50
    have hS0 : lsum (x.map fun v => (v - lmean x) ^ 2) ≠ 0 := by
      intro h0
      apply hv
      unfold varPop
      rw [h0]
      simp
    have h1 : (x.length : ℚ) ≠ 0 := by linarith
    have h2 : (x.length : ℚ) - 1 ≠ 0 := by linarith
    unfold ols_beta
    rw [if_neg (by omega), if_neg hv]
    unfold cov1 varPop olsSlopeSpec
    rw [hlen]
    field_simp
    ring

/-- C3 witness: the amended theorem applied at a concrete input — the
spike series of 50 points, where `ols_beta` equals `50/49` times the
spec's OLS slope. -/
theorem c3_witness :
    ols_beta (List.replicate 49 0 ++ [1]) (List.replicate 49 0 ++ [1]) =
      ((List.replicate 49 (0 : ℚ) ++ [1]).length : ℚ) /
          (((List.replicate 49 (0 : ℚ) ++ [1]).length : ℚ) - 1) *
        olsSlopeSpec (List.replicate 49 0 ++ [1]) (List.replicate 49 0 ++ [1]) := by
  apply (c3_ols_beta_amended (List.replicate 49 0 ++ [1])
    (List.replicate 49 0 ++ [1])).2.2 rfl (by simp) (by
      rw [varPop_spike]
      norm_num)

/-- C5 counterexample: for limit k = 0 and a nonempty ranked list,
`pick_top_pairs` returns one pair, not at most 0 — the bound is checked
only after a pick is appended. -/
theorem c5_counterexample :
    pick_top_pairs [⟨"A", "B", 0, 0, 0, 0⟩] 0 = [("A", "B")] ∧
    ¬(pick_top_pairs [⟨"A", "B", 0, 0, 0, 0⟩] 0).length ≤ 0 := by
  have h : pick_top_pairs [⟨"A", "B", 0, 0, 0, 0⟩] 0 = [("A", "B")] := rfl
  exact ⟨h, by rw [h]; simp⟩

/-- C5 (amended): `pick_top_pairs` never returns two pairs sharing an
instrument and its output is a greedy-order selection (a sublist of the
ranked pairs); it returns at most k pairs for every k ≥ 1 (for k = 0 the
post-append bound check still lets one pair through). -/
theorem c5_pick_top_pairs (scored : List PairScore) (k : ℕ) :
    (pick_top_pairs scored k).Pairwise
      (fun q r => q.1 ≠ r.1 ∧ q.1 ≠ r.2 ∧ q.2 ≠ r.1 ∧ q.2 ≠ r.2) ∧
    (1 ≤ k → (pick_top_pairs scored k).length ≤ k) ∧
    (pick_top_pairs scored k).Sublist (scored.map fun p => (p.a, p.b)) := by
  refine ⟨?_, ?_, ?_⟩
  · exact pickLoop_disjoint k scored [] [] (by simp) (by simp)
  · intro hk
    exact pickLoop_length k scored [] [] (by simpa using hk)
  · obtain ⟨rest, h1, h2⟩ := pickLoop_sublist k scored [] []
    show (pickLoop k scored [] []).Sublist _
    rw [h1, List.nil_append]
    exact h2

/-- C5 witness: the amended theorem applied at a concrete ranked list
with an instrument shared between the top two entries and k = 2. -/
theorem c5_witness :
    (pick_top_pairs [⟨"A", "B", 9, 0, 0, 0⟩, ⟨"B", "C", 5, 0, 0, 0⟩,
        ⟨"C", "D", 1, 0, 0, 0⟩] 2).Pairwise
      (fun q r => q.1 ≠ r.1 ∧ q.1 ≠ r.2 ∧ q.2 ≠ r.1 ∧ q.2 ≠ r.2) ∧
    (pick_top_pairs [⟨"A", "B", 9, 0, 0, 0⟩, ⟨"B", "C", 5, 0, 0, 0⟩,
        ⟨"C", "D", 1, 0, 0, 0⟩] 2).length ≤ 2 :=
  ⟨(c5_pick_top_pairs [⟨"A", "B", 9, 0, 0, 0⟩, ⟨"B", "C", 5, 0, 0, 0⟩,
      ⟨"C", "D", 1, 0, 0, 0⟩] 2).1,
    (c5_pick_top_pairs [⟨"A", "B", 9, 0, 0, 0⟩, ⟨"B", "C", 5, 0, 0, 0⟩,
      ⟨"C", "D", 1, 0, 0, 0⟩] 2).2.1 (by norm_num)⟩

/-- C2 counterexample: starting from an empty position table with
`max_open_positions = 2`, one cycle over three rankable pairs opens three
positions — the cap is read only at the start of the cycle, and entries
made during the cycle are not counted against it. -/
theorem c2_counterexample :
    default_config.max_open_positions = 2 ∧
    emptyState.positions.length = 0 ∧
    (step default_config envManyEnter emptyState
        [("A1", "B1"), ("A2", "B2"), ("A3", "B3")]).1.positions.length = 3 := by
  refine ⟨rfl, rfl, ?_⟩
  rw [c2_cycle_eval]
  rfl

/-- C2 (amended): the open-position cap is enforced only at cycle
granularity.  When the table already holds `max_open_positions` or more
entries (with distinct pair keys) at the start of a cycle, the cycle scans
only the held pairs, sends no open orders, and the table does not grow.
When the cycle starts below the cap, the table can grow by up to one
position per scanned pair, past the cap. -/
theorem c2_position_cap (cfg : Config) (env : Env) (s : BotState)
    (pairs : List PairKey) :
    ((s.positions.map (fun e => e.1)).Nodup →
      cfg.max_open_positions ≤ s.positions.length →
      (step cfg env s pairs).1.positions.length ≤ s.positions.length ∧
      (∀ c ∈ (step cfg env s pairs).2, ∀ sym side v,
        c ≠ BrokerCall.openPos sym side v)) ∧
    (s.positions.length < cfg.max_open_positions →
      (step cfg env s pairs).1.positions.length ≤
        s.positions.length + pairs.length) := by
  have hfld := (can_trade_fields env s false).1.1
  constructor
  · intro hnd hcap
    unfold step
    dsimp only
    split
    · exact ⟨by rw [hfld], by simp⟩
    · rw [hfld, if_pos hcap]
      have hmem : ∀ k ∈ s.positions.map (fun e => e.1),
          (posLookup (can_trade env s false).2.positions k).isSome = true := by
        intro k hk
        rw [hfld]
        exact posLookup_isSome_of_mem_keys s.positions k hk
      obtain ⟨h1, h2⟩ := run_pairs_exit_only cfg env
        (s.positions.map (fun e => e.1)) (can_trade env s false).2 hmem hnd
      refine ⟨?_, h2⟩
      calc (run_pairs cfg env (can_trade env s false).2
            (s.positions.map (fun e => e.1))).1.positions.length
          ≤ (can_trade env s false).2.positions.length := h1
        _ = s.positions.length := by rw [hfld]
  · intro hlt
    unfold step
    dsimp only
    split
    · rw [hfld]; omega
    · rw [hfld, if_neg (by omega)]
      have h := run_pairs_length cfg env pairs (can_trade env s false).2
      rw [hfld] at h
      exact h

/-- C2 witness: the amended theorem applied at a concrete at-cap state —
a cycle started with two held pairs does not grow the table and sends no
open orders. -/
theorem c2_witness :
    (step default_config envManyEnter
        ⟨[(("A1", "B1"), enteredPos "A1" "B1"), (("A2", "B2"), enteredPos "A2" "B2")],
          0, false, 0⟩
        [("A1", "B1"), ("A2", "B2"), ("A3", "B3")]).1.positions.length ≤ 2 ∧
    (∀ c ∈ (step default_config envManyEnter
        ⟨[(("A1", "B1"), enteredPos "A1" "B1"), (("A2", "B2"), enteredPos "A2" "B2")],
          0, false, 0⟩
        [("A1", "B1"), ("A2", "B2"), ("A3", "B3")]).2, ∀ sym side v,
      c ≠ BrokerCall.openPos sym side v) :=
  (c2_position_cap default_config envManyEnter
    ⟨[(("A1", "B1"), enteredPos "A1" "B1"), (("A2", "B2"), enteredPos "A2" "B2")],
      0, false, 0⟩
    [("A1", "B1"), ("A2", "B2"), ("A3", "B3")]).1 (by decide) (by norm_num [default_config])

/-- C4 counterexample: at an environment where both legs carry the same
price series (the down-spike series), the computed hedge is beta =
120/119 ≠ 1, the spread is not identically zero (its last point is
1/119), the z-score numerator is nonzero, and the cycle's signal is a
spurious `ENTER_LONGB_SHORTA` instead of a flat HOLD. -/
theorem c4_counterexample :
    (compute_signal default_config envIdent [] "A" "B").action =
      "ENTER_LONGB_SHORTA" ∧
    ols_beta spikeDnSeries spikeDnSeries ≠ 1 ∧
    spreadOf (ols_beta spikeDnSeries spikeDnSeries) spikeDnSeries spikeDnSeries ≠
      List.replicate 120 0 ∧
    (compute_signal default_config envIdent [] "A" "B").zNum ≠ 0 := by
  have hsig := sig_ident envIdent [] "A" "B" rfl rfl rfl
  refine ⟨by rw [hsig], ?_, ?_, by rw [hsig]; norm_num⟩
  · rw [beta_ident]
    norm_num
  · rw [beta_ident, spread_ident]
    intro h
    have h2 := congrArg llast h
    rw [llast_spike] at h2
    rw [show (120 : ℕ) = 119 + 1 from rfl, replicate_concat, llast_spike] at h2
    norm_num at h2

/-- C4 (amended): on two identical series of n ≥ 50 points with nonzero
population variance, `ols_beta` returns n/(n-1) (not 1), and the
resulting spread is the series scaled by -1/(n-1) (not identically
zero), so identical legs can still produce nonzero z-scores. -/
theorem c4_identical_series (l : List ℚ) (h50 : 50 ≤ l.length)
    (hv : varPop l ≠ 0) :
    ols_beta l l = (l.length : ℚ) / ((l.length : ℚ) - 1) ∧
    spreadOf (ols_beta l l) l l =
      l.map fun v => -(1 / ((l.length : ℚ) - 1)) * v := by
  have hn : (50 : ℚ) ≤ (l.length : ℚ) := by exact_mod_cast h50
  have h1 : (l.length : ℚ) ≠ 0 := by linarith
  have h2 : (l.length : ℚ) - 1 ≠ 0 := by linarith
  have hS0 : lsum (l.map fun v => (v - lmean l) ^ 2) ≠ 0 := by
    intro h0
    apply hv
    unfold varPop
    rw [h0]
    simp
  have hb : ols_beta l l = (l.length : ℚ) / ((l.length : ℚ) - 1) := by
    unfold ols_beta
    rw [if_neg (by omega), if_neg hv, cov1_self]
    unfold var1 varPop
    field_simp
    ring
  refine ⟨hb, ?_⟩
  rw [hb, spreadOf_self]
  apply List.map_congr_left
  intro v _
  field_simp
  ring

/-- C4 witness: the amended theorem applied at the 120-point down-spike
series: beta is 120/119 and the spread scales the series by -1/119. -/
theorem c4_witness :
    ols_beta spikeDnSeries spikeDnSeries =
      ((spikeDnSeries.length : ℚ)) / ((spikeDnSeries.length : ℚ) - 1) ∧
    spreadOf (ols_beta spikeDnSeries spikeDnSeries) spikeDnSeries spikeDnSeries =
      spikeDnSeries.map fun v => -(1 / ((spikeDnSeries.length : ℚ) - 1)) * v :=
  c4_identical_series spikeDnSeries (by simp [spikeDnSeries])
    (by
      unfold spikeDnSeries
      rw [varPop_spike]
      norm_num)

/-- C6: two-leg entry as a retry loop with compensation.  Up to three
attempts are made; positions recorded in the table never carry a zero
ticket; if no attempt opens both legs the state is unchanged and the
trace is the three attempts' calls in order; when attempt j (1, 2 or 3)
succeeds the position is recorded with that attempt's two broker tickets
(and only when both tickets are nonzero, matching the Python truthiness
guard); and an attempt whose leg A opened but whose leg B failed ends
with the compensating ticket-addressed close of leg A. -/
theorem c6_entry_retry :
    (∀ (env : Env) (s : BotState) (a b action : String) (pa pb : ℚ),
      (∀ q ∈ (live_enter env s a b action pa pb).1.positions,
        q ∈ s.positions ∨ (q.2.ticket_a ≠ 0 ∧ q.2.ticket_b ≠ 0)) ∧
      (firstSuccAt (env.openRes (a, b)) = none →
        (live_enter env s a b action pa pb).1 = s ∧
        (live_enter env s a b action pa pb).2 =
          attemptCalls (env.openRes (a, b)) a b
              (if action = "ENTER_A_LONG" then "BUY" else "SELL")
              (if action = "ENTER_A_LONG" then "SELL" else "BUY")
              (env.calcVol a pa (pa * (95 / 100)))
              (env.calcVol b pb (pb * (95 / 100))) 1 ++
            attemptCalls (env.openRes (a, b)) a b
              (if action = "ENTER_A_LONG" then "BUY" else "SELL")
              (if action = "ENTER_A_LONG" then "SELL" else "BUY")
              (env.calcVol a pa (pa * (95 / 100)))
              (env.calcVol b pb (pb * (95 / 100))) 2 ++
            attemptCalls (env.openRes (a, b)) a b
              (if action = "ENTER_A_LONG" then "BUY" else "SELL")
              (if action = "ENTER_A_LONG" then "SELL" else "BUY")
              (env.calcVol a pa (pa * (95 / 100)))
              (env.calcVol b pb (pb * (95 / 100))) 3) ∧
      (∀ j, firstSuccAt (env.openRes (a, b)) = some j →
        (((env.openRes (a, b) j true).order = 0 ∨
            (env.openRes (a, b) j false).order = 0) →
          (live_enter env s a b action pa pb).1 = s) ∧
        ((env.openRes (a, b) j true).order ≠ 0 →
          (env.openRes (a, b) j false).order ≠ 0 →
          ∃ v : Position,
            v.ticket_a = (env.openRes (a, b) j true).order ∧
            v.ticket_b = (env.openRes (a, b) j false).order ∧
            (live_enter env s a b action pa pb).1.positions =
              posInsert s.positions (a, b) v))) ∧
    (∀ (res : ℕ → Bool → BrokerResult) (x y sa sb : String) (va vb : ℚ) (j : ℕ),
      (res j true).ok = true → (res j false).ok = false →
      attemptCalls res x y sa sb va vb j =
        [BrokerCall.openPos x sa va, BrokerCall.openPos y sb vb,
          BrokerCall.closeTicket (res j true).order]) := by
  constructor
  · intro env s a b action pa pb
    obtain ⟨sp1, sp2, sp3, sp4⟩ := enterLoop_spec (env.openRes (a, b)) a b
      (if action = "ENTER_A_LONG" then "BUY" else "SELL")
      (if action = "ENTER_A_LONG" then "SELL" else "BUY")
      (env.calcVol a pa (pa * (95 / 100)))
      (env.calcVol b pb (pb * (95 / 100)))
    refine ⟨?_, ?_, ?_⟩
    · intro q hq
      rcases live_enter_cases env s a b action pa pb with hc | ⟨v, hv1, hv2, hc⟩
      · rw [hc] at hq
        exact Or.inl hq
      · rw [hc] at hq
        rcases posInsert_mem s.positions (a, b) v q hq with h | h
        · exact Or.inl h
        · rw [h]
          exact Or.inr ⟨hv1, hv2⟩
    · intro hnone
      unfold live_enter
      dsimp only
      rw [sp4 hnone, if_neg (by simp)]
      exact ⟨rfl, rfl⟩
    · intro j hj
      have hzero : ∀ o1 o2 : ℤ, ∀ tr : List BrokerCall,
          enterLoop (env.openRes (a, b)) a b
              (if action = "ENTER_A_LONG" then "BUY" else "SELL")
              (if action = "ENTER_A_LONG" then "SELL" else "BUY")
              (env.calcVol a pa (pa * (95 / 100)))
              (env.calcVol b pb (pb * (95 / 100))) 3 1 = (o1, o2, tr) →
          ((o1 = 0 ∨ o2 = 0) → (live_enter env s a b action pa pb).1 = s) ∧
          (o1 ≠ 0 → o2 ≠ 0 →
            ∃ v : Position, v.ticket_a = o1 ∧ v.ticket_b = o2 ∧
              (live_enter env s a b action pa pb).1.positions =
                posInsert s.positions (a, b) v) := by
        intro o1 o2 tr heq
        constructor
        · intro hz
          unfold live_enter
          dsimp only
          rw [heq, if_neg (by rcases hz with h | h <;> simp [h])]
        · intro h1 h2
          unfold live_enter
          dsimp only
          rw [heq, if_pos ⟨h1, h2⟩]
          exact ⟨_, rfl, rfl, rfl⟩
      rcases firstSuccAt_cases (env.openRes (a, b)) j hj with rfl | rfl | rfl
      · exact hzero _ _ _ (sp1 hj)
      · exact hzero _ _ _ (sp2 hj)
      · exact hzero _ _ _ (sp3 hj)
  · intro res x y sa sb va vb j hA hB
    unfold attemptCalls
    rw [if_neg (by simp [hA]), if_neg (by simp [hB])]

/-- Concrete run of the retry scenario: leg B's open fails on attempt 1
after leg A got ticket 101, so the loop closes ticket 101 and retries;
attempt 2 opens both legs with tickets 102 and 103 and the position is
recorded with exactly those tickets. -/
theorem enterRetry_eval :
    firstSuccAt (envRetryEntry.openRes ("A", "B")) = some 2 ∧
    live_enter envRetryEntry emptyState "A" "B" "ENTER_LONGB_SHORTA" 1 1 =
      (⟨[(("A", "B"), ⟨"A", "B", "SELL", "BUY", 1, 1, 1, 1, 0, 102, 103⟩)],
          0, false, 0⟩,
        [BrokerCall.openPos "A" "SELL" 1, BrokerCall.openPos "B" "BUY" 1,
          BrokerCall.closeTicket 101,
          BrokerCall.openPos "A" "SELL" 1, BrokerCall.openPos "B" "BUY" 1]) := by
  constructor
  · rfl
  · simp [live_enter, enterLoop, envRetryEntry, baseEnv, posInsert, emptyState]

/-- C7: the 30-minute cooldown after a losing exit.  A close pair whose
summed realized profit is negative sets `cooldown_until_ts` to
`now + 30*60`; while the clock is before that timestamp no open order is
sent by a cycle, and a fresh ENTER signal is reduced to a counter reset
with no broker call; an EXIT on a held position is still executed in
full (position erased, both legs closed) regardless of the cooldown. -/
theorem c7_loss_cooldown :
    (∀ (env : Env) (s : BotState) (k : PairKey) (pos : Position),
      (if (env.closeRes pos.ticket_a).ok then (env.closeRes pos.ticket_a).profit
          else 0) +
        (if (env.closeRes pos.ticket_b).ok then (env.closeRes pos.ticket_b).profit
          else 0) < 0 →
      (live_exit env s k pos).1.cooldown_until_ts = env.now + 30 * 60) ∧
    (∀ (cfg : Config) (env : Env) (s : BotState) (pairs : List PairKey),
      env.now < s.cooldown_until_ts →
      ∀ c ∈ (step cfg env s pairs).2, ∀ sym side v,
        c ≠ BrokerCall.openPos sym side v) ∧
    (∀ (cfg : Config) (env : Env) (s : BotState) (p : PairKey),
      env.raises p = false → posLookup s.positions p = none →
      startsWithB (compute_signal cfg env s.positions p.1 p.2).action "ENTER" = true →
      env.now < s.cooldown_until_ts →
      step_pair cfg env s p = ({ s with consecutive_errors := 0 }, [])) ∧
    (∀ (cfg : Config) (env : Env) (s : BotState) (p : PairKey) (pos : Position),
      env.raises p = false → posLookup s.positions p = some pos →
      (compute_signal cfg env s.positions p.1 p.2).action = "EXIT" →
      (step_pair cfg env s p).1.positions = posErase s.positions p ∧
      (step_pair cfg env s p).2 =
        [BrokerCall.closeTicket pos.ticket_a, BrokerCall.closeTicket pos.ticket_b]) := by
  refine ⟨?_, ?_, ?_, ?_⟩
  · intro env s k pos h
    unfold live_exit
    dsimp only
    rw [if_pos h]
  · intro cfg env s pairs hcd
    exact step_cd cfg env s pairs hcd
  · intro cfg env s p hr hl hsw hcd
    rw [step_pair_fresh cfg env s p hr hl, can_trade_entry_cd env s hcd,
      if_pos hsw, if_neg (by simp)]
  · intro cfg env s p pos hr hl hact
    rw [step_pair_open cfg env s p pos hr hl, if_pos hact]
    exact ⟨(live_exit_positions env s p pos).1,
      (live_exit_positions env s p pos).2.2⟩

/-- C8: exception handling and the halt threshold.  A halted state makes
the cycle a no-op; a halted flag survives every per-pair iteration; an
iteration that raises increments the consecutive-error counter and sets
`halted` exactly when the counter reaches 8; a non-raising iteration
resets the counter to 0; and a cycle of at least 8 consecutively raising
pairs starting from counter `c` with `8 ≤ c + pairs` ends halted. -/
theorem c8_error_halt :
    (∀ (cfg : Config) (env : Env) (s : BotState) (pairs : List PairKey),
      s.halted = true → step cfg env s pairs = (s, [])) ∧
    (∀ (cfg : Config) (env : Env) (s : BotState) (p : PairKey),
      s.halted = true → (step_pair cfg env s p).1.halted = true) ∧
    (∀ (cfg : Config) (env : Env) (s : BotState) (p : PairKey),
      env.raises p = true →
      step_pair cfg env s p =
        ({ s with
            consecutive_errors := s.consecutive_errors + 1,
            halted := s.halted || decide (8 ≤ s.consecutive_errors + 1) }, [])) ∧
    (∀ (cfg : Config) (env : Env) (s : BotState) (p : PairKey),
      env.raises p = false → (step_pair cfg env s p).1.consecutive_errors = 0) ∧
    (∀ (cfg : Config) (env : Env) (l : List PairKey) (s : BotState),
      (∀ p ∈ l, env.raises p = true) → 8 ≤ s.consecutive_errors + l.length →
      l ≠ [] → (run_pairs cfg env s l).1.halted = true) :=
  ⟨step_halted, step_pair_halted_mono, step_pair_raises_eq, step_pair_success_errors,
    fun cfg env l s hall h8 hne =>
      ((run_pairs_all_raise cfg env l s hall).2.2) h8 hne⟩

/-- C9: risk-gate precedence and reasons, with an equity start snapshot
in place and the kill switch enforced.  Trading is blocked with reason
"KILL_SWITCH equity DD" exactly when the drawdown `equity - start` is at
or below `-|max_total_drawdown_usd|`; otherwise it is blocked with
reason "DAILY_LIMIT pnl_today" exactly when `daily_realized + floating`
is at or below `-|max_daily_loss_usd|`; otherwise the result is
`(true, "OK")`. -/
theorem c9_risk_gate (cfg : RiskConfig) (e : ℚ) (acct : AccountView)
    (henf : cfg.enforce_kill_switch = true) :
    ((is_trading_allowed cfg (some e) acct = (false, "KILL_SWITCH equity DD")) ↔
      acct.equity - e ≤ -|cfg.max_total_drawdown_usd|) ∧
    (¬acct.equity - e ≤ -|cfg.max_total_drawdown_usd| →
      ((is_trading_allowed cfg (some e) acct = (false, "DAILY_LIMIT pnl_today")) ↔
        acct.daily_realized + acct.floating ≤ -|cfg.max_daily_loss_usd|)) ∧
    (¬acct.equity - e ≤ -|cfg.max_total_drawdown_usd| →
      ¬acct.daily_realized + acct.floating ≤ -|cfg.max_daily_loss_usd| →
      is_trading_allowed cfg (some e) acct = (true, "OK")) := by
  unfold is_trading_allowed
  dsimp only [Option.getD]
  by_cases h1 : acct.equity - e ≤ -|cfg.max_total_drawdown_usd|
  · rw [if_pos ⟨henf, h1⟩]
    exact ⟨⟨fun _ => h1, fun _ => rfl⟩,
      fun hc => absurd h1 hc, fun hc => absurd h1 hc⟩
  · rw [if_neg (fun hc => h1 hc.2)]
    by_cases h2 : acct.daily_realized + acct.floating ≤ -|cfg.max_daily_loss_usd|
    · rw [if_pos h2]
      refine ⟨⟨fun he => ?_, fun hc => absurd hc h1⟩,
        fun _ => ⟨fun _ => h2, fun _ => rfl⟩, fun _ hc => absurd h2 hc⟩
      simp at he
    · rw [if_neg h2]
      refine ⟨⟨fun he => ?_, fun hc => absurd hc h1⟩,
        fun _ => ⟨fun he => ?_, fun hc => absurd hc h2⟩, fun _ _ => rfl⟩
      · simp at he
      · simp at he

/-- C9 witness: the gate at concrete accounts under the default risk
limits (max drawdown 500, max daily loss 50): a 600 drawdown trips the
kill switch, a -60 daily PnL trips the daily limit, and a mild account
passes with "OK". -/
theorem c9_witness :
    is_trading_allowed {} (some 1000) ⟨400, 0, 0⟩ =
      (false, "KILL_SWITCH equity DD") ∧
    is_trading_allowed {} (some 1000) ⟨900, -100, 40⟩ =
      (false, "DAILY_LIMIT pnl_today") ∧
    is_trading_allowed {} (some 1000) ⟨995, -10, 5⟩ = (true, "OK") :=
  ⟨(c9_risk_gate {} 1000 ⟨400, 0, 0⟩ rfl).1.mpr (by norm_num),
    ((c9_risk_gate {} 1000 ⟨900, -100, 40⟩ rfl).2.1 (by norm_num)).mpr (by norm_num),
    (c9_risk_gate {} 1000 ⟨995, -10, 5⟩ rfl).2.2 (by norm_num) (by norm_num)⟩

/-- C10: insufficient data is a pure skip.  When either tailed price
series has fewer than 120 points, the signal is
`("SKIP", "not enough data")` with the neutral z/beta placeholders, and
the per-pair iteration for a held position leaves the position table
untouched (the position — however stale — stays open) and sends no
broker call. -/
theorem c10_short_data_skip (cfg : Config) (env : Env) (s : BotState)
    (p : PairKey) (pos : Position)
    (hshort : (tailN (env.logClose p.1) cfg.lookback).length < 120 ∨
      (tailN (env.logClose p.2) cfg.lookback).length < 120)
    (hr : env.raises p = false)
    (hlook : posLookup s.positions p = some pos) :
    compute_signal cfg env s.positions p.1 p.2 =
      ⟨"SKIP", 0, 1, 1, "not enough data"⟩ ∧
    (step_pair cfg env s p).1.positions = s.positions ∧
    posLookup (step_pair cfg env s p).1.positions p = some pos ∧
    (step_pair cfg env s p).2 = [] := by
  have hsig := sig_skip_short cfg env s.positions p.1 p.2 hshort
  have hkeep := step_pair_skip_keeps cfg env s p hr (by rw [hsig])
  refine ⟨hsig, hkeep.1, ?_, hkeep.2⟩
  rw [hkeep.1]
  exact hlook

/-- C10 witness: the skip theorem at the 119-point environment and the
stale held position — the signal is SKIP and the stale position stays in
the table with no broker call. -/
theorem c10_witness :
    compute_signal default_config envShortData staleState.positions "A" "B" =
      ⟨"SKIP", 0, 1, 1, "not enough data"⟩ ∧
    (step_pair default_config envShortData staleState ("A", "B")).1.positions =
      staleState.positions ∧
    posLookup (step_pair default_config envShortData staleState ("A", "B")).1.positions
      ("A", "B") = some stalePosition ∧
    (step_pair default_config envShortData staleState ("A", "B")).2 = [] :=
  c10_short_data_skip default_config envShortData staleState ("A", "B") stalePosition
    (Or.inl (by norm_num [envShortData, baseEnv, shortSeries, tailN, default_config]))
    rfl rfl
